import Mathlib

/-! decoShp: a shallow embedding of the shapefile decoder.

The Go package `decoshp` (file `decoShp.go`) reads the 100-byte shapefile header and
then one polygon record per call.  This development embeds the package in Lean and
proves properties of the embedding.

Modelling conventions.

* A byte is a `Fin 256`.  The `*os.File` of a `Decoder` is the list of bytes that are
  still unread (a regular file read sequentially, without I/O errors other than end
  of file).
* Go `int` is the 64-bit signed integer (`Int`, additions wrapped by `int64`);
  `uint16`, `uint32`, `uint64` are `Nat` with an explicit `% 2^w` where the source
  computes in that type.
* A Go byte slice is a `ByteSlice`: the `len` visible bytes and the bytes of the
  backing array between `len` and `cap`.  Slice expressions check their bounds
  against the capacity, as Go does.
* A call either returns a value, returns a Go `error`, or panics (`Fault`).  Loops
  run on fuel; `Fault.fuel` is the result of a loop that ran out of it.
* A `float64` is its IEEE-754 binary64 bit pattern; arithmetic rounds to nearest,
  ties to even, and treats NaN as amd64 does: a NaN operand comes back with its sign
  and payload and the quiet bit set.
-/

namespace decoshp

/-! ## Go run-time model -/

/-- One octet. -/
abbrev Byte := Fin 256

/-- Go `error` values the package can return. -/
inductive GoError where
  /-- The value `io.EOF`. -/
  | EOF
  /-- The value `io.ErrUnexpectedEOF`. -/
  | ErrUnexpectedEOF
  /-- The value of `fmt.Errorf("error while reading file: %e", err)`: a fresh error
  that only formats `err` (no `%w`, so it does not wrap it). -/
  | Errorf (err : GoError)
  deriving DecidableEq, Repr

/-- The ways a call can fail to return a value. -/
inductive Fault where
  /-- The call returned `(nil, e)`. -/
  | err (e : GoError)
  /-- The call panicked (slice bounds out of range, nil dereference). -/
  | panic
  /-- A fuelled loop of the model ran out of fuel. -/
  | fuel
  deriving DecidableEq, Repr

/-- Result of a call: a value or a `Fault`. -/
abbrev Outcome (α : Type) := Except Fault α

deriving instance DecidableEq for Except

/-- Go `uint32` arithmetic: the result of an operation modulo `2^32`. -/
def uint32 (x : Nat) : Nat := x % 4294967296

/-- Two's-complement wrap of a mathematical integer into Go's 64-bit `int`. -/
def int64 (x : Int) : Int :=
  (x + 9223372036854775808) % 18446744073709551616 - 9223372036854775808

/-- A Go `[]byte`: `data` are the `len` bytes, `spare` the bytes of the backing array
from `len` up to `cap`. -/
structure ByteSlice where
  data : List Byte
  spare : List Byte
  deriving DecidableEq, Repr

namespace ByteSlice

/-- Go `len(s)`. -/
def len (s : ByteSlice) : Nat := s.data.length

/-- Go `cap(s)`. -/
def cap (s : ByteSlice) : Nat := s.data.length + s.spare.length

/-- Go `s[lo:hi]`: panics unless `0 <= lo <= hi <= cap(s)`. -/
def slice (s : ByteSlice) (lo hi : Nat) : Outcome ByteSlice :=
  if lo ≤ hi ∧ hi ≤ s.cap then
    .ok { data := ((s.data ++ s.spare).take hi).drop lo, spare := (s.data ++ s.spare).drop hi }
  else .error .panic

/-- Go `s[lo:]`, which is `s[lo:len(s)]`. -/
def sliceFrom (s : ByteSlice) (lo : Nat) : Outcome ByteSlice := s.slice lo s.len

/-- Go `s[:hi]`, which is `s[0:hi]`. -/
def sliceTo (s : ByteSlice) (hi : Nat) : Outcome ByteSlice := s.slice 0 hi

/-- The slice a fully successful `io.ReadFull` leaves in a buffer made by
`make([]byte, n)`: length and capacity `n`. -/
def ofList (bs : List Byte) : ByteSlice := { data := bs, spare := [] }

end ByteSlice

/-- Go `io.ReadFull(file, buf)` with `len(buf) = n` on a file whose unread bytes are
`file`: the new unread bytes and either the `n` bytes read or the error.  With
`n = 0` nothing is read and the call succeeds; a file that ends before `n` bytes gives
`io.EOF` when no byte was read and `io.ErrUnexpectedEOF` otherwise, and is left at
its end. -/
def ReadFull (file : List Byte) (n : Nat) : List Byte × Except GoError (List Byte) :=
  if n ≤ file.length then (file.drop n, .ok (file.take n))
  else if file.length = 0 then ([], .error .EOF)
  else ([], .error .ErrUnexpectedEOF)

/-! ## `encoding/binary` -/

namespace binary

/-- Go `binary.BigEndian.Uint32(b)`: panics when `len(b) < 4`. -/
def BigEndian.Uint32 (b : ByteSlice) : Outcome Nat :=
  match b.data with
  | b0 :: b1 :: b2 :: b3 :: _ =>
    .ok (b0.val * 16777216 + b1.val * 65536 + b2.val * 256 + b3.val)
  | _ => .error .panic

/-- Go `binary.LittleEndian.Uint16(b)`: panics when `len(b) < 2`. -/
def LittleEndian.Uint16 (b : ByteSlice) : Outcome Nat :=
  match b.data with
  | b0 :: b1 :: _ => .ok (b0.val + b1.val * 256)
  | _ => .error .panic

/-- Go `binary.LittleEndian.Uint32(b)`: panics when `len(b) < 4`. -/
def LittleEndian.Uint32 (b : ByteSlice) : Outcome Nat :=
  match b.data with
  | b0 :: b1 :: b2 :: b3 :: _ =>
    .ok (b0.val + b1.val * 256 + b2.val * 65536 + b3.val * 16777216)
  | _ => .error .panic

/-- Go `binary.LittleEndian.Uint64(b)`: panics when `len(b) < 8`. -/
def LittleEndian.Uint64 (b : ByteSlice) : Outcome Nat :=
  match b.data with
  | b0 :: b1 :: b2 :: b3 :: b4 :: b5 :: b6 :: b7 :: _ =>
    .ok (b0.val + b1.val * 256 + b2.val * 65536 + b3.val * 16777216
      + b4.val * 4294967296 + b5.val * 1099511627776 + b6.val * 281474976710656
      + b7.val * 72057594037927936)
  | _ => .error .panic

end binary

/-! ## `float64` -/

/-- A Go `float64`, held as its IEEE-754 binary64 bit pattern (a `uint64`). -/
structure Float64 where
  bits : Nat
  deriving DecidableEq, Repr

namespace math

/-- Go `math.Float64frombits(b)`: the float whose bit pattern is `b`. -/
def Float64frombits (b : Nat) : Float64 := { bits := b }

/-- Go `math.Float64bits(f)`: the bit pattern of `f`. -/
def Float64bits (f : Float64) : Nat := f.bits

end math

namespace Float64

/-- What a bit pattern denotes: a NaN, an infinity, or the finite number
`(-1)^neg * mant * 2^exp`. -/
inductive Val where
  | nan
  | inf (neg : Bool)
  | fin (neg : Bool) (mant : Nat) (exp : Int)
  deriving DecidableEq, Repr

/-- Decoding of a binary64 bit pattern: sign bit 63, biased exponent bits 62..52,
fraction bits 51..0. -/
def toVal (f : Float64) : Val :=
  let neg := decide (f.bits / 2 ^ 63 % 2 = 1)
  let e := f.bits / 2 ^ 52 % 2048
  let m := f.bits % 2 ^ 52
  if e = 2047 then (if m = 0 then .inf neg else .nan)
  else if e = 0 then .fin neg m (-1074)
  else .fin neg (2 ^ 52 + m) (Int.ofNat e - 1075)

/-- The sign bit of a pattern. -/
def signBit (neg : Bool) : Nat := if neg then 2 ^ 63 else 0

/-- The NaN that an invalid operation (`0 * inf`, `inf - inf`) produces on amd64: the
default quiet NaN, with the sign bit set and an empty payload. -/
def nanBits : Float64 := { bits := 0xFFF8000000000000 }

/-- The NaN that an operation returns for a NaN operand on amd64: the operand with
its sign and payload kept and the quiet bit (bit 51) set. -/
def quiet (a : Float64) : Float64 :=
  { bits := if a.bits / 2 ^ 51 % 2 = 1 then a.bits else a.bits + 2 ^ 51 }

/-- The pattern of an infinity. -/
def infBits (neg : Bool) : Float64 := { bits := signBit neg + 2047 * 2 ^ 52 }

/-- Helper of `bitLen`: at most `fuel` halvings. -/
def bitLen.go : Nat → Nat → Nat
  | 0, _ => 0
  | fuel + 1, n => if n = 0 then 0 else bitLen.go fuel (n / 2) + 1

/-- Number of binary digits of `n` (0 for 0). -/
def bitLen (n : Nat) : Nat := bitLen.go n n

/-- Rounding of the exact number `(-1)^neg * mant * 2^exp` to binary64, to nearest
with ties to even; too large a magnitude gives the infinity.  `q` is the exponent of
the last kept binary digit. -/
def round (neg : Bool) (mant : Nat) (exp : Int) : Float64 :=
  if mant = 0 then { bits := signBit neg }
  else
    let q : Int := max (exp + Int.ofNat (bitLen mant) - 53) (-1074)
    let kept : Nat :=
      if q ≤ exp then mant * 2 ^ (exp - q).toNat
      else
        let sh := (q - exp).toNat
        let quo := mant / 2 ^ sh
        let rem := mant % 2 ^ sh
        let half := 2 ^ (sh - 1)
        if rem > half ∨ (rem = half ∧ quo % 2 = 1) then quo + 1 else quo
    let mag := (q + 1074).toNat * 2 ^ 52 + kept
    if mag ≥ 2047 * 2 ^ 52 then infBits neg else { bits := signBit neg + mag }

/-- Conversion of a non-negative integer constant to `float64`. -/
def ofNat (n : Nat) : Float64 := round false n 0

/-- Go `-x` on `float64`: the sign bit flipped. -/
def neg (a : Float64) : Float64 :=
  { bits := if a.bits / 2 ^ 63 % 2 = 1 then a.bits - 2 ^ 63 else a.bits + 2 ^ 63 }

/-- Go `a * b` on `float64` (IEEE-754 multiplication, as `MULSD` computes it).  A NaN
operand is returned quieted, the first one when both are NaN. -/
def mul (a b : Float64) : Float64 :=
  match a.toVal, b.toVal with
  | .nan, _ => quiet a
  | _, .nan => quiet b
  | .inf s, .inf t => infBits (xor s t)
  | .inf s, .fin t n _ => if n = 0 then nanBits else infBits (xor s t)
  | .fin s m _, .inf t => if m = 0 then nanBits else infBits (xor s t)
  | .fin s m e, .fin t n k => round (xor s t) (m * n) (e + k)

/-- Go `a + b` on `float64` (IEEE-754 addition, as `ADDSD` computes it): the exact
sum, as an integer multiple of `2^q`, rounded once.  An exact zero sum is `+0`, except
`-0 + -0 = -0`.  A NaN operand is returned quieted, the first one when both are
NaN. -/
def add (a b : Float64) : Float64 :=
  match a.toVal, b.toVal with
  | .nan, _ => quiet a
  | _, .nan => quiet b
  | .inf s, .inf t => if s = t then infBits s else nanBits
  | .inf s, .fin _ _ _ => infBits s
  | .fin _ _ _, .inf t => infBits t
  | .fin s m e, .fin t n k =>
    let q : Int := min e k
    let x : Int := if s then -Int.ofNat (m * 2 ^ (e - q).toNat) else Int.ofNat (m * 2 ^ (e - q).toNat)
    let y : Int := if t then -Int.ofNat (n * 2 ^ (k - q).toNat) else Int.ofNat (n * 2 ^ (k - q).toNat)
    let z : Int := x + y
    if z = 0 then { bits := signBit (s && t) } else round (decide (z < 0)) z.natAbs q

/-- Go `a - b` on `float64` (as `SUBSD` computes it): a NaN operand is returned
quieted, with its own sign, the first one when both are NaN; otherwise the
subtraction is the addition of the negation. -/
def sub (a b : Float64) : Float64 :=
  match a.toVal, b.toVal with
  | .nan, _ => quiet a
  | _, .nan => quiet b
  | _, _ => add a (neg b)

end Float64

/-! ## Data model (`decoShp.go`, lines 11-70) -/

/-- The package variable `shapeTypes`, a `map[int]string`, as the lookup
`name, ok := shapeTypes[code]`: `none` is `ok = false`. -/
def shapeTypes (code : Int) : Option String :=
  match code with
  | 0 => some "Null Shape"
  | 1 => some "Point"
  | 3 => some "PolyLine"
  | 5 => some "Polygon"
  | 8 => some "MultiPoint"
  | 11 => some "PointZ"
  | 13 => some "PolyLineZ"
  | 15 => some "PolygonZ"
  | 18 => some "MultiPointZ"
  | 21 => some "PointM"
  | 23 => some "PolyLineM"
  | 25 => some "PolygonM"
  | 28 => some "MultiPointM"
  | 31 => some "MultiPatch"
  | _ => none

structure Point where
  X : Float64
  Y : Float64
  deriving DecidableEq, Repr

structure PolygonBoundingBox where
  XMin : Float64
  YMin : Float64
  XMax : Float64
  YMax : Float64
  deriving DecidableEq, Repr

/-- The anonymous struct type of `PolygonRecord.Header`. -/
structure RecordHeader where
  RecordNumber : Int
  ContentLenght : Int
  deriving DecidableEq, Repr

/-- A decoded record.  A nil slice is the empty list. -/
structure PolygonRecord where
  Header : RecordHeader
  ShapeType : Int
  Box : PolygonBoundingBox
  NumParts : Int
  NumPoints : Int
  Parts : List Int
  Points : List Point
  deriving DecidableEq, Repr

structure BoundingBox where
  Xmin : Float64
  Ymin : Float64
  Xmax : Float64
  Ymax : Float64
  Zmin : Float64
  Zmax : Float64
  Mmin : Float64
  Mmax : Float64
  deriving DecidableEq, Repr

/-- The file header; the embedded `BoundingBox` is the field of that name. -/
structure Header where
  FileCode : Int
  FileLength : Int
  Version : Int
  ShapeType : Int
  BoundingBox : BoundingBox
  deriving DecidableEq, Repr

/-- The decoder: `file` holds the unread bytes of the `*os.File`, `Header` is the
embedded `*Header` (`none` is the nil pointer), `bytesRead` the consumed counter. -/
structure Decoder where
  file : List Byte
  Header : Option Header
  bytesRead : Int
  deriving DecidableEq, Repr

/-! ## Header reader (`decoShp.go`, lines 72-122) -/

/-- `Decoder.GetHeader`, lines 94-121: the statements after the read, on the filled
buffer `b1`. -/
def GetHeader.parse (b1 : ByteSlice) : Outcome Header := do
  let code ← binary.BigEndian.Uint32 (← b1.sliceTo 4)
  let fileLenght ← binary.BigEndian.Uint32 (← b1.slice 24 28)
  let version ← binary.LittleEndian.Uint16 (← b1.slice 28 32)
  let shapeType ← binary.LittleEndian.Uint16 (← b1.slice 32 36)
  let xMin ← binary.LittleEndian.Uint64 (← b1.slice 36 44)
  let yMin ← binary.LittleEndian.Uint64 (← b1.slice 44 52)
  let xMax ← binary.LittleEndian.Uint64 (← b1.slice 52 60)
  let yMax ← binary.LittleEndian.Uint64 (← b1.slice 60 68)
  let zMin ← binary.LittleEndian.Uint64 (← b1.slice 68 76)
  let zMax ← binary.LittleEndian.Uint64 (← b1.slice 76 84)
  let mMin ← binary.LittleEndian.Uint64 (← b1.slice 84 92)
  let mMax ← binary.LittleEndian.Uint64 (← b1.sliceFrom 92)
  let box : BoundingBox :=
    { Xmin := math.Float64frombits xMin
      Ymin := math.Float64frombits yMin
      Xmax := math.Float64frombits xMax
      Ymax := math.Float64frombits yMax
      Zmin := math.Float64frombits zMin
      Zmax := math.Float64frombits zMax
      Mmin := math.Float64frombits mMin
      Mmax := math.Float64frombits mMax }
  return { FileCode := Int.ofNat code, FileLength := Int.ofNat fileLenght,
           Version := Int.ofNat version, ShapeType := Int.ofNat shapeType,
           BoundingBox := box }

/-- `func (d *Decoder) GetHeader() (*Header, error)`: the decoder after the call and
what the call returns. -/
def GetHeader (d : Decoder) : Decoder × Outcome Header :=
  match ReadFull d.file 100 with
  | (file1, .error err) => ({ d with file := file1 }, .error (.err (.Errorf err)))
  | (file1, .ok b1) =>
    let d1 := { d with file := file1, bytesRead := int64 (d.bytesRead + 50) }
    (d1, GetHeader.parse (ByteSlice.ofList b1))

/-- `func New(file *os.File) (*Decoder, error)`. -/
def New (file : List Byte) : Outcome Decoder :=
  let d : Decoder := { file := file, Header := none, bytesRead := 0 }
  match GetHeader d with
  | (_, .error e) => .error e
  | (d1, .ok h) => .ok { d1 with Header := some h }

/-! ## Record decoder (`decoShp.go`, lines 124-197) -/

/-- The loop of `DecodePoints` (lines 188-195) from index `i` with the points
collected so far; `fuel` bounds the number of iterations.  The product and the sum of
`x*13 + 1500` are rounded one after the other (no fused multiply-add), as the gc
compiler does on amd64; the constants 13, 1500 and 400 convert exactly. -/
def DecodePoints.loop (bytesArray : ByteSlice) : Nat → Nat → List Point → Outcome (List Point)
  | 0, i, pointsArray => if i < bytesArray.len then .error .fuel else .ok pointsArray
  | fuel + 1, i, pointsArray =>
    if i < bytesArray.len then do
      let x ← binary.LittleEndian.Uint64 (← bytesArray.slice i (i + 8))
      let y ← binary.LittleEndian.Uint64 (← bytesArray.slice (i + 8) (i + 16))
      let point : Point :=
        { X := ((math.Float64frombits x).mul (Float64.ofNat 13)).add (Float64.ofNat 1500)
          Y := ((math.Float64frombits y).mul (Float64.ofNat 13)).sub (Float64.ofNat 400) }
      DecodePoints.loop bytesArray fuel (i + 16) (pointsArray ++ [point])
    else .ok pointsArray

/-- `func DecodePoints(bytesArray []byte, lenght int) []Point`.  The loop advances
by 16 from 0 while below `len(bytesArray)`, so `len(bytesArray)` iterations of fuel
are enough. -/
def DecodePoints (bytesArray : ByteSlice) (_lenght : Int) : Outcome (List Point) :=
  DecodePoints.loop bytesArray bytesArray.len 0 []

/-- The loop of `DecodeRecord` over the part table (lines 172-175) from index `i`
with the values collected so far. -/
def DecodeRecord.partsLoop (parts : ByteSlice) : Nat → Nat → List Int → Outcome (List Int)
  | 0, i, partsArray => if i < parts.len then .error .fuel else .ok partsArray
  | fuel + 1, i, partsArray =>
    if i < parts.len then do
      let val ← binary.LittleEndian.Uint32 (← parts.slice i (i + 4))
      DecodeRecord.partsLoop parts fuel (i + 4) (partsArray ++ [Int.ofNat val])
    else .ok partsArray

/-- `Decoder.DecodeRecord`, lines 136-137: the two fields of the 8-byte record
header, `(recordNumber, recordLenght)`. -/
def DecodeRecord.header (header : ByteSlice) : Outcome (Nat × Nat) := do
  let recordNumber ← binary.BigEndian.Uint32 (← header.sliceTo 4)
  let recordLenght ← binary.BigEndian.Uint32 (← header.sliceFrom 4)
  return (recordNumber, recordLenght)

/-- `Decoder.DecodeRecord`, lines 150-182: the statements after the two reads, on
the filled buffer `recordBody`.  The offsets `44+4*numParts` are `uint32`
expressions.  `partsArray` is built and then dropped: no statement stores it in
`decodedRecord.Parts`, which keeps its zero value, the nil slice. -/
def DecodeRecord.body (recordNumber recordLenght : Nat) (recordBody : ByteSlice) :
    Outcome PolygonRecord := do
  let shapeType ← binary.LittleEndian.Uint32 (← recordBody.sliceTo 4)
  let boxXMin ← binary.LittleEndian.Uint64 (← recordBody.slice 4 (4 + 8))
  let boxYMin ← binary.LittleEndian.Uint64 (← recordBody.slice (4 + 8) (4 + 16))
  let boxXMax ← binary.LittleEndian.Uint64 (← recordBody.slice (4 + 16) (4 + 24))
  let boxYMax ← binary.LittleEndian.Uint64 (← recordBody.slice (4 + 24) (4 + 32))
  let numParts ← binary.LittleEndian.Uint32 (← recordBody.slice 36 40)
  let numPoints ← binary.LittleEndian.Uint32 (← recordBody.slice 40 44)
  let parts ← recordBody.slice 44 (uint32 (44 + uint32 (4 * numParts)))
  let _partsArray ← DecodeRecord.partsLoop parts parts.len 0 []
  let points ← recordBody.sliceFrom (uint32 (44 + uint32 (4 * numParts)))
  let decodedPoints ← DecodePoints points (Int.ofNat recordLenght)
  return { Header := { RecordNumber := Int.ofNat recordNumber
                       ContentLenght := Int.ofNat recordLenght }
           ShapeType := Int.ofNat shapeType
           Box := { XMin := math.Float64frombits boxXMin
                    YMin := math.Float64frombits boxYMin
                    XMax := math.Float64frombits boxXMax
                    YMax := math.Float64frombits boxYMax }
           NumParts := Int.ofNat numParts
           NumPoints := Int.ofNat numPoints
           Parts := []
           Points := decodedPoints }

/-- `func (d *Decoder) DecodeRecord() (*PolygonRecord, error)`: the decoder after the
call and what the call returns.  `d.Header.FileLength` on a nil `Header` panics;
`recordLenght*2` is a `uint32` product. -/
def DecodeRecord (d : Decoder) : Decoder × Outcome PolygonRecord :=
  match d.Header with
  | none => (d, .error .panic)
  | some hdr =>
    if d.bytesRead ≥ hdr.FileLength then (d, .error (.err .EOF))
    else
      match ReadFull d.file 8 with
      | (file1, .error err) => ({ d with file := file1 }, .error (.err err))
      | (file1, .ok header) =>
        match DecodeRecord.header (ByteSlice.ofList header) with
        | .error f => ({ d with file := file1 }, .error f)
        | .ok (recordNumber, recordLenght) =>
          match ReadFull file1 (uint32 (recordLenght * 2)) with
          | (file2, .error err) => ({ d with file := file2 }, .error (.err err))
          | (file2, .ok recordBody) =>
            ({ d with file := file2
                      bytesRead := int64 (d.bytesRead + int64 (Int.ofNat recordLenght + 4)) },
              DecodeRecord.body recordNumber recordLenght (ByteSlice.ofList recordBody))

/-! ## Reading the model at a byte offset -/

/-- The value of byte `i` of `b` (0 past the end). -/
def byteAt (b : List Byte) (i : Nat) : Nat := (b.getD i 0).val

/-- The big-endian unsigned 32-bit value of `b[i..i+3]`. -/
def be32At (b : List Byte) (i : Nat) : Nat :=
  byteAt b i * 2 ^ 24 + byteAt b (i + 1) * 2 ^ 16 + byteAt b (i + 2) * 2 ^ 8 + byteAt b (i + 3)

/-- The little-endian unsigned 16-bit value of `b[i..i+1]`. -/
def le16At (b : List Byte) (i : Nat) : Nat :=
  byteAt b i + byteAt b (i + 1) * 2 ^ 8

/-- The little-endian unsigned 32-bit value of `b[i..i+3]`. -/
def le32At (b : List Byte) (i : Nat) : Nat :=
  byteAt b i + byteAt b (i + 1) * 2 ^ 8 + byteAt b (i + 2) * 2 ^ 16 + byteAt b (i + 3) * 2 ^ 24

/-- The little-endian unsigned 64-bit value of `b[i..i+7]`. -/
def le64At (b : List Byte) (i : Nat) : Nat :=
  byteAt b i + byteAt b (i + 1) * 2 ^ 8 + byteAt b (i + 2) * 2 ^ 16 + byteAt b (i + 3) * 2 ^ 24
    + byteAt b (i + 4) * 2 ^ 32 + byteAt b (i + 5) * 2 ^ 40 + byteAt b (i + 6) * 2 ^ 48
    + byteAt b (i + 7) * 2 ^ 56

/-- The header that the layout of section 4.1 assigns to the 100 bytes `b`: each
field read at its offset. -/
def headerAt (b : List Byte) : Header :=
  { FileCode := Int.ofNat (be32At b 0)
    FileLength := Int.ofNat (be32At b 24)
    Version := Int.ofNat (le16At b 28)
    ShapeType := Int.ofNat (le16At b 32)
    BoundingBox :=
      { Xmin := { bits := le64At b 36 }
        Ymin := { bits := le64At b 44 }
        Xmax := { bits := le64At b 52 }
        Ymax := { bits := le64At b 60 }
        Zmin := { bits := le64At b 68 }
        Zmax := { bits := le64At b 76 }
        Mmin := { bits := le64At b 84 }
        Mmax := { bits := le64At b 92 } } }

/-! ## Sample data

A file of two polygon records, used to instantiate the theorems below. -/

/-- A 100-byte header: file code 9994, file length 156 words, version 1000, shape type
5, bounding box 123.456, -45.5, 200.25, 80, 1.5, 2.5, -3, 4; bytes 4..23 hold 1..20. -/
def sampleHeader : List Byte :=
  [0, 0, 39, 10, 1, 2, 3, 4, 5, 6, 7, 8, 9, 10, 11, 12, 13, 14, 15, 16, 17, 18, 19, 20, 0, 0,
   0, 156, 232, 3, 0, 0, 5, 0, 0, 0, 119, 190, 159, 26, 47, 221, 94, 64, 0, 0, 0, 0, 0, 192,
   70, 192, 0, 0, 0, 0, 0, 8, 105, 64, 0, 0, 0, 0, 0, 0, 84, 64, 0, 0, 0, 0, 0, 0, 248, 63, 0,
   0, 0, 0, 0, 0, 4, 64, 0, 0, 0, 0, 0, 0, 8, 192, 0, 0, 0, 0, 0, 0, 16, 64]

/-- The bytes of `sampleHeader` with bytes 4..23 replaced by 255. -/
def sampleHeaderAlt : List Byte :=
  [0, 0, 39, 10, 255, 255, 255, 255, 255, 255, 255, 255, 255, 255, 255, 255, 255, 255, 255,
   255, 255, 255, 255, 255, 0, 0, 0, 156, 232, 3, 0, 0, 5, 0, 0, 0, 119, 190, 159, 26, 47, 221,
   94, 64, 0, 0, 0, 0, 0, 192, 70, 192, 0, 0, 0, 0, 0, 8, 105, 64, 0, 0, 0, 0, 0, 0, 84, 64, 0,
   0, 0, 0, 0, 0, 248, 63, 0, 0, 0, 0, 0, 0, 4, 64, 0, 0, 0, 0, 0, 0, 8, 192, 0, 0, 0, 0, 0, 0,
   16, 64]

/-- Record header of the first sample record: number 1, content length 66 words. -/
def sampleRecord1Header : List Byte :=
  [0, 0, 0, 1, 0, 0, 0, 66]

/-- Body of the first sample record: shape type 5, box (0, 0, 1, 1), two parts
`[0, 3]`, five points (0,0), (1,1), (1,0), (0,1), (0.5,0.25). -/
def sampleRecord1Body : List Byte :=
  [5, 0, 0, 0, 0, 0, 0, 0, 0, 0, 0, 0, 0, 0, 0, 0, 0, 0, 0, 0, 0, 0, 0, 0, 0, 0, 240, 63, 0, 0,
   0, 0, 0, 0, 240, 63, 2, 0, 0, 0, 5, 0, 0, 0, 0, 0, 0, 0, 3, 0, 0, 0, 0, 0, 0, 0, 0, 0, 0, 0,
   0, 0, 0, 0, 0, 0, 0, 0, 0, 0, 0, 0, 0, 0, 240, 63, 0, 0, 0, 0, 0, 0, 240, 63, 0, 0, 0, 0, 0,
   0, 240, 63, 0, 0, 0, 0, 0, 0, 0, 0, 0, 0, 0, 0, 0, 0, 0, 0, 0, 0, 0, 0, 0, 0, 240, 63, 0, 0,
   0, 0, 0, 0, 224, 63, 0, 0, 0, 0, 0, 0, 208, 63]

/-- Record header of the second sample record: number 2, content length 32 words. -/
def sampleRecord2Header : List Byte :=
  [0, 0, 0, 2, 0, 0, 0, 32]

/-- Body of the second sample record: shape type 5, box (2, 2, 3, 3), one part `[0]`,
one point (2,3). -/
def sampleRecord2Body : List Byte :=
  [5, 0, 0, 0, 0, 0, 0, 0, 0, 0, 0, 64, 0, 0, 0, 0, 0, 0, 0, 64, 0, 0, 0, 0, 0, 0, 8, 64, 0, 0,
   0, 0, 0, 0, 8, 64, 1, 0, 0, 0, 1, 0, 0, 0, 0, 0, 0, 0, 0, 0, 0, 0, 0, 0, 0, 64, 0, 0, 0, 0,
   0, 0, 8, 64]

/-- The two sample records, concatenated. -/
def sampleRecords : List Byte :=
  (sampleRecord1Header ++ sampleRecord1Body) ++ (sampleRecord2Header ++ sampleRecord2Body)

/-- The sample file: the header followed by the two records. -/
def sampleFile : List Byte := sampleHeader ++ sampleRecords

/-- The point that `DecodePoints` builds from the 16 bytes `b[i..i+15]`: the two
little-endian `float64` values, each multiplied by 13, then 1500 added to the first
and 400 subtracted from the second. -/
def pointAt (b : List Byte) (i : Nat) : Point :=
  { X := ((math.Float64frombits (le64At b i)).mul (Float64.ofNat 13)).add (Float64.ofNat 1500)
    Y := ((math.Float64frombits (le64At b (i + 8))).mul (Float64.ofNat 13)).sub
           (Float64.ofNat 400) }

/-- The outcomes of `n` successive calls of `DecodeRecord`, in call order, and the
decoder after them. -/
def DecodeRecord.calls : Nat → Decoder → Decoder × List (Outcome PolygonRecord)
  | 0, d => (d, [])
  | n + 1, d =>
    ((DecodeRecord.calls n (DecodeRecord d).1).1,
      (DecodeRecord d).2 :: (DecodeRecord.calls n (DecodeRecord d).1).2)


/-- The 16 bytes that encode the raw coordinates (0.0, 0.0). -/
def rawZeroZero : List Byte := [0, 0, 0, 0, 0, 0, 0, 0, 0, 0, 0, 0, 0, 0, 0, 0]

/-- The 16 bytes that encode the raw coordinates (1.0, 1.0); 1.0 is the pattern
0x3FF0000000000000. -/
def rawOneOne : List Byte := [0, 0, 0, 0, 0, 0, 240, 63, 0, 0, 0, 0, 0, 0, 240, 63]


/-- What `DecodeRecord` returns for the first sample record.  The patterns are those
of 0 and 1 (box) and of 1500, -400, 1513, -387, 1506.5 and -396.75 (points). -/
def sampleRecord1Decoded : PolygonRecord :=
  { Header := { RecordNumber := 1, ContentLenght := 66 }
    ShapeType := 5
    Box := { XMin := { bits := 0 }, YMin := { bits := 0 },
             XMax := { bits := 0x3FF0000000000000 }, YMax := { bits := 0x3FF0000000000000 } }
    NumParts := 2
    NumPoints := 5
    Parts := []
    Points :=
      [{ X := { bits := 0x4097700000000000 }, Y := { bits := 0xC079000000000000 } },
       { X := { bits := 0x4097A40000000000 }, Y := { bits := 0xC078300000000000 } },
       { X := { bits := 0x4097A40000000000 }, Y := { bits := 0xC079000000000000 } },
       { X := { bits := 0x4097700000000000 }, Y := { bits := 0xC078300000000000 } },
       { X := { bits := 0x40978A0000000000 }, Y := { bits := 0xC078CC0000000000 } }] }

/-- What `DecodeRecord` returns for the second sample record.  The patterns are those
of 2 and 3 (box) and of 1526 and -361 (point). -/
def sampleRecord2Decoded : PolygonRecord :=
  { Header := { RecordNumber := 2, ContentLenght := 32 }
    ShapeType := 5
    Box := { XMin := { bits := 0x4000000000000000 }, YMin := { bits := 0x4000000000000000 },
             XMax := { bits := 0x4008000000000000 }, YMax := { bits := 0x4008000000000000 } }
    NumParts := 1
    NumPoints := 1
    Parts := []
    Points := [{ X := { bits := 0x4097D80000000000 }, Y := { bits := 0xC076900000000000 } }] }

/-- The decoder that `New` builds on the sample file: the two records unread, the
header stored, the counter at 50. -/
def sampleDecoder : Decoder :=
  { file := sampleRecords, Header := some (headerAt sampleHeader), bytesRead := 50 }


/-- The record that `DecodeRecord` returns for a well-formed record with the 8-byte
record header `h` and the body `r` (see `DecodeRecord_body_wellformed`): each field read
at its offset, the points from the 16-byte chunks after the part table, `Parts` nil. -/
def recordAt (h r : List Byte) : PolygonRecord :=
  { Header := { RecordNumber := Int.ofNat (be32At h 0)
                ContentLenght := Int.ofNat (be32At h 4) }
    ShapeType := Int.ofNat (le32At r 0)
    Box := { XMin := math.Float64frombits (le64At r 4)
             YMin := math.Float64frombits (le64At r 12)
             XMax := math.Float64frombits (le64At r 20)
             YMax := math.Float64frombits (le64At r 28) }
    NumParts := Int.ofNat (le32At r 36)
    NumPoints := Int.ofNat (le32At r 40)
    Parts := []
    Points := (List.range (le32At r 40)).map
      (fun j => pointAt r (44 + 4 * le32At r 36 + 16 * j)) }


/-- A well-formed on-disk record, as a pair of its 8-byte record header and its body:
the body has `2 * contentLength` bytes, and that is
`44 + 4*numParts + 16*numPoints`. -/
def WellFormedRecord (p : List Byte × List Byte) : Prop :=
  p.1.length = 8 ∧ p.2.length = 2 * be32At p.1 4 ∧
  2 * be32At p.1 4 = 44 + 4 * le32At p.2 36 + 16 * le32At p.2 40

/-- The bytes of a sequence of on-disk records, concatenated in order. -/
def recordsBytes (recs : List (List Byte × List Byte)) : List Byte :=
  (recs.map (fun p => p.1 ++ p.2)).flatten

/-- The length in 16-bit words of a sequence of on-disk records: `4 + contentLength`
for each. -/
def recordsWords (recs : List (List Byte × List Byte)) : Nat :=
  (recs.map (fun p => 4 + be32At p.1 4)).sum

/-- The decoded record `rec` is the on-disk record with record header `h` and body
`r`: every field except `Parts` has the on-disk value, and the points are those of
the 16-byte chunks after the part table, in order. -/
def RecordMatches (h r : List Byte) (rec : PolygonRecord) : Prop :=
  rec.Header.RecordNumber = Int.ofNat (be32At h 0) ∧
  rec.Header.ContentLenght = Int.ofNat (be32At h 4) ∧
  rec.ShapeType = Int.ofNat (le32At r 0) ∧
  rec.Box.XMin = math.Float64frombits (le64At r 4) ∧
  rec.Box.YMin = math.Float64frombits (le64At r 12) ∧
  rec.Box.XMax = math.Float64frombits (le64At r 20) ∧
  rec.Box.YMax = math.Float64frombits (le64At r 28) ∧
  rec.NumParts = Int.ofNat (le32At r 36) ∧
  rec.NumPoints = Int.ofNat (le32At r 40) ∧
  rec.Points = (List.range (le32At r 40)).map
    (fun j => pointAt r (44 + 4 * le32At r 36 + 16 * j))

/-- A 100-byte header that declares the file length `50 + 4 + 2^31` words; every
other byte is 0. -/
def hugeHeader : List Byte :=
  List.replicate 24 0 ++ [128, 0, 0, 54] ++ List.replicate 72 0

/-- A record header: record number 1, content length `2^31` words. -/
def hugeRecordHeader : List Byte := [0, 0, 0, 1, 128, 0, 0, 0]

/-- A body of `2^32` bytes: shape type 5, a zero box, `numParts = 2^30 - 11`
(bytes 36..39), `numPoints = 0`, then `2^32 - 44` zero bytes of part table. -/
def hugeRecordBody : List Byte :=
  ([5, 0, 0, 0] ++ List.replicate 32 0 ++ [245, 255, 255, 63, 0, 0, 0, 0])
    ++ List.replicate (2 ^ 32 - 44) 0


/-- The shape-type codes that have a name in `shapeTypes`. -/
def namedShapeCodes : List Int := [0, 1, 3, 5, 8, 11, 13, 15, 18, 21, 23, 25, 28, 31]

/-- A 100-byte header that declares the file length `words` (below 256) and is 0
elsewhere. -/
def headerOfLength (words : Byte) : List Byte :=
  List.replicate 24 0 ++ [0, 0, 0, words] ++ List.replicate 72 0

/-- A record header: record number 1, content length `words` (below 256). -/
def recordHeaderOfLength (words : Byte) : List Byte := [0, 0, 0, 1, 0, 0, 0, words]

/-- The 44 fixed bytes of a body: shape type 5, a zero box, and the given four bytes
of `numParts` and of `numPoints`. -/
def fixedBody (numParts numPoints : List Byte) : List Byte :=
  [5, 0, 0, 0] ++ List.replicate 32 0 ++ numParts ++ numPoints

/-- A 44-byte body that declares `numParts = 2^30` and no point. -/
def wrapRecordBody : List Byte := fixedBody [0, 0, 0, 64] [0, 0, 0, 0]

/-- A 44-byte body that declares `numParts = 1` and no point: the part table would
end at byte 48. -/
def overlongPartsBody : List Byte := fixedBody [1, 0, 0, 0] [0, 0, 0, 0]

/-- A 60-byte body that declares no part and no point but carries the 16 bytes of
the raw coordinates (1.0, 1.0) after the fixed fields. -/
def extraChunkBody : List Byte := fixedBody [0, 0, 0, 0] [0, 0, 0, 0] ++ rawOneOne

/-- A 52-byte body that declares no part and no point but carries 8 more bytes, the
pattern of 1.0, after the fixed fields. -/
def halfChunkBody : List Byte :=
  fixedBody [0, 0, 0, 0] [0, 0, 0, 0] ++ [0, 0, 0, 0, 0, 0, 240, 63]

/-- A well-formed 44-byte body: no part, no point. -/
def emptyShapeBody : List Byte := fixedBody [0, 0, 0, 0] [0, 0, 0, 0]


/-- The number of calls, among those with the outcomes `outs`, that returned a
record. -/
def okCount (outs : List (Outcome PolygonRecord)) : Nat :=
  (outs.filter (fun o => match o with
    | .ok _ => true
    | .error _ => false)).length

/-- Every call with an outcome in `outs` returned a record, of content length below
`2^31`. -/
def AllSmallRecords (outs : List (Outcome PolygonRecord)) : Prop :=
  ∀ o ∈ outs, ∃ rec : PolygonRecord, o = .ok rec ∧ rec.Header.ContentLenght < 2 ^ 31


/-- The 16 bytes of two NaN raw coordinates: X the quiet NaN 0x7FF8000000000123, Y the
signalling NaN 0xFFF0000000000001. -/
def rawNaNs : List Byte := [35, 1, 0, 0, 0, 0, 248, 127, 1, 0, 0, 0, 0, 0, 240, 255]

/-- A well-formed 60-byte body: no part, one point, the point of `rawNaNs`. -/
def nanPointBody : List Byte := fixedBody [0, 0, 0, 0] [1, 0, 0, 0] ++ rawNaNs


/-! # Properties -/

theorem byteAt_lt (b : List Byte) (i : Nat) : byteAt b i < 256 := (b.getD i 0).isLt

theorem getD_window (b : List Byte) (lo hi i : Nat) (h : lo + i < hi) :
    ((b.take hi).drop lo).getD i 0 = b.getD (lo + i) 0 := by
  simp [List.getD_eq_getElem?_getD, List.getElem?_drop, List.getElem?_take, h]

theorem byteAt_window (b : List Byte) (lo hi i : Nat) (h : lo + i < hi) :
    byteAt ((b.take hi).drop lo) i = byteAt b (lo + i) := by
  unfold byteAt
  rw [getD_window b lo hi i h]

theorem slice_ofList (b : List Byte) (lo hi : Nat) (h1 : lo ≤ hi) (h2 : hi ≤ b.length) :
    (ByteSlice.ofList b).slice lo hi = .ok ⟨(b.take hi).drop lo, b.drop hi⟩ := by
  simp [ByteSlice.slice, ByteSlice.ofList, ByteSlice.cap, h1, h2]

theorem BigEndian_Uint32_eq (l sp : List Byte) (h : 4 ≤ l.length) :
    binary.BigEndian.Uint32 ⟨l, sp⟩ = .ok (be32At l 0) := by
  match l, h with
  | b0 :: b1 :: b2 :: b3 :: _, _ => simp [binary.BigEndian.Uint32, be32At, byteAt]

theorem LittleEndian_Uint16_eq (l sp : List Byte) (h : 2 ≤ l.length) :
    binary.LittleEndian.Uint16 ⟨l, sp⟩ = .ok (le16At l 0) := by
  match l, h with
  | b0 :: b1 :: _, _ => simp [binary.LittleEndian.Uint16, le16At, byteAt]

theorem LittleEndian_Uint32_eq (l sp : List Byte) (h : 4 ≤ l.length) :
    binary.LittleEndian.Uint32 ⟨l, sp⟩ = .ok (le32At l 0) := by
  match l, h with
  | b0 :: b1 :: b2 :: b3 :: _, _ => simp [binary.LittleEndian.Uint32, le32At, byteAt]

theorem LittleEndian_Uint64_eq (l sp : List Byte) (h : 8 ≤ l.length) :
    binary.LittleEndian.Uint64 ⟨l, sp⟩ = .ok (le64At l 0) := by
  match l, h with
  | b0 :: b1 :: b2 :: b3 :: b4 :: b5 :: b6 :: b7 :: _, _ =>
    simp [binary.LittleEndian.Uint64, le64At, byteAt]

theorem be32At_window (b : List Byte) (lo hi : Nat) (h : lo + 4 ≤ hi) :
    be32At ((b.take hi).drop lo) 0 = be32At b lo := by
  simp only [be32At]
  rw [byteAt_window b lo hi 0 (by omega), byteAt_window b lo hi (0 + 1) (by omega),
    byteAt_window b lo hi (0 + 2) (by omega), byteAt_window b lo hi (0 + 3) (by omega)]
  simp

theorem le16At_window (b : List Byte) (lo hi : Nat) (h : lo + 2 ≤ hi) :
    le16At ((b.take hi).drop lo) 0 = le16At b lo := by
  simp only [le16At]
  rw [byteAt_window b lo hi 0 (by omega), byteAt_window b lo hi (0 + 1) (by omega)]
  simp

theorem le32At_window (b : List Byte) (lo hi : Nat) (h : lo + 4 ≤ hi) :
    le32At ((b.take hi).drop lo) 0 = le32At b lo := by
  simp only [le32At]
  rw [byteAt_window b lo hi 0 (by omega), byteAt_window b lo hi (0 + 1) (by omega),
    byteAt_window b lo hi (0 + 2) (by omega), byteAt_window b lo hi (0 + 3) (by omega)]
  simp

theorem le64At_window (b : List Byte) (lo hi : Nat) (h : lo + 8 ≤ hi) :
    le64At ((b.take hi).drop lo) 0 = le64At b lo := by
  simp only [le64At]
  rw [byteAt_window b lo hi 0 (by omega), byteAt_window b lo hi (0 + 1) (by omega),
    byteAt_window b lo hi (0 + 2) (by omega), byteAt_window b lo hi (0 + 3) (by omega),
    byteAt_window b lo hi (0 + 4) (by omega), byteAt_window b lo hi (0 + 5) (by omega),
    byteAt_window b lo hi (0 + 6) (by omega), byteAt_window b lo hi (0 + 7) (by omega)]
  simp

theorem window_length (b : List Byte) (lo hi : Nat) (h : hi ≤ b.length) :
    ((b.take hi).drop lo).length = hi - lo := by
  simp [List.length_drop, List.length_take, Nat.min_eq_left h]

/-- Reading a big-endian `uint32` through a slice expression. -/
theorem read_be32 {α : Type} (s : ByteSlice) (lo hi : Nat) (h1 : lo + 4 ≤ hi) (h2 : hi ≤ s.cap)
    (f : Nat → Outcome α) :
    (s.slice lo hi >>= fun t => binary.BigEndian.Uint32 t >>= f)
      = f (be32At (s.data ++ s.spare) lo) := by
  have hc : hi ≤ (s.data ++ s.spare).length := by simpa [ByteSlice.cap] using h2
  have hl : lo ≤ hi := by omega
  simp only [ByteSlice.slice, hl, h2, and_self, if_true]
  change (binary.BigEndian.Uint32 ⟨((s.data ++ s.spare).take hi).drop lo, _⟩ >>= f) = _
  rw [BigEndian_Uint32_eq _ _ (by rw [window_length _ _ _ hc]; omega), be32At_window _ _ _ h1]
  rfl

/-- Reading a little-endian `uint16` through a slice expression. -/
theorem read_le16 {α : Type} (s : ByteSlice) (lo hi : Nat) (h1 : lo + 2 ≤ hi) (h2 : hi ≤ s.cap)
    (f : Nat → Outcome α) :
    (s.slice lo hi >>= fun t => binary.LittleEndian.Uint16 t >>= f)
      = f (le16At (s.data ++ s.spare) lo) := by
  have hc : hi ≤ (s.data ++ s.spare).length := by simpa [ByteSlice.cap] using h2
  have hl : lo ≤ hi := by omega
  simp only [ByteSlice.slice, hl, h2, and_self, if_true]
  change (binary.LittleEndian.Uint16 ⟨((s.data ++ s.spare).take hi).drop lo, _⟩ >>= f) = _
  rw [LittleEndian_Uint16_eq _ _ (by rw [window_length _ _ _ hc]; omega), le16At_window _ _ _ h1]
  rfl

/-- Reading a little-endian `uint32` through a slice expression. -/
theorem read_le32 {α : Type} (s : ByteSlice) (lo hi : Nat) (h1 : lo + 4 ≤ hi) (h2 : hi ≤ s.cap)
    (f : Nat → Outcome α) :
    (s.slice lo hi >>= fun t => binary.LittleEndian.Uint32 t >>= f)
      = f (le32At (s.data ++ s.spare) lo) := by
  have hc : hi ≤ (s.data ++ s.spare).length := by simpa [ByteSlice.cap] using h2
  have hl : lo ≤ hi := by omega
  simp only [ByteSlice.slice, hl, h2, and_self, if_true]
  change (binary.LittleEndian.Uint32 ⟨((s.data ++ s.spare).take hi).drop lo, _⟩ >>= f) = _
  rw [LittleEndian_Uint32_eq _ _ (by rw [window_length _ _ _ hc]; omega), le32At_window _ _ _ h1]
  rfl

/-- Reading a little-endian `uint64` through a slice expression. -/
theorem read_le64 {α : Type} (s : ByteSlice) (lo hi : Nat) (h1 : lo + 8 ≤ hi) (h2 : hi ≤ s.cap)
    (f : Nat → Outcome α) :
    (s.slice lo hi >>= fun t => binary.LittleEndian.Uint64 t >>= f)
      = f (le64At (s.data ++ s.spare) lo) := by
  have hc : hi ≤ (s.data ++ s.spare).length := by simpa [ByteSlice.cap] using h2
  have hl : lo ≤ hi := by omega
  simp only [ByteSlice.slice, hl, h2, and_self, if_true]
  change (binary.LittleEndian.Uint64 ⟨((s.data ++ s.spare).take hi).drop lo, _⟩ >>= f) = _
  rw [LittleEndian_Uint64_eq _ _ (by rw [window_length _ _ _ hc]; omega), le64At_window _ _ _ h1]
  rfl

/-- On 100 bytes the statements of `GetHeader` after the read never panic and give
the header of the layout. -/
theorem GetHeader_parse_eq (b : List Byte) (hb : b.length = 100) :
    GetHeader.parse (ByteSlice.ofList b) = .ok (headerAt b) := by
  have hcap : (ByteSlice.ofList b).cap = 100 := by simp [ByteSlice.cap, ByteSlice.ofList, hb]
  have hlen : (ByteSlice.ofList b).len = 100 := by simp [ByteSlice.len, ByteSlice.ofList, hb]
  have hall : (ByteSlice.ofList b).data ++ (ByteSlice.ofList b).spare = b := by
    simp [ByteSlice.ofList]
  unfold GetHeader.parse
  simp only [ByteSlice.sliceTo, ByteSlice.sliceFrom, hlen]
  rw [read_be32 _ 0 4 (by omega) (by omega)]
  rw [read_be32 _ 24 28 (by omega) (by omega)]
  rw [read_le16 _ 28 32 (by omega) (by omega)]
  rw [read_le16 _ 32 36 (by omega) (by omega)]
  rw [read_le64 _ 36 44 (by omega) (by omega)]
  rw [read_le64 _ 44 52 (by omega) (by omega)]
  rw [read_le64 _ 52 60 (by omega) (by omega)]
  rw [read_le64 _ 60 68 (by omega) (by omega)]
  rw [read_le64 _ 68 76 (by omega) (by omega)]
  rw [read_le64 _ 76 84 (by omega) (by omega)]
  rw [read_le64 _ 84 92 (by omega) (by omega)]
  rw [read_le64 _ 92 100 (by omega) (by omega)]
  rw [hall]
  rfl

theorem ReadFull_append (b rest : List Byte) (n : Nat) (hb : b.length = n) :
    ReadFull (b ++ rest) n = (rest, .ok b) := by
  subst hb
  simp [ReadFull]

/-- `GetHeader` on a file that starts with the 100 bytes `b`. -/
theorem GetHeader_eq (d : Decoder) (b rest : List Byte) (hb : b.length = 100)
    (hd : d.file = b ++ rest) :
    GetHeader d = ({ d with file := rest, bytesRead := int64 (d.bytesRead + 50) },
      .ok (headerAt b)) := by
  simp only [GetHeader, hd, ReadFull_append b rest 100 hb, GetHeader_parse_eq b hb]

/-- `New` on a file that starts with the 100 bytes `b`. -/
theorem New_eq (b rest : List Byte) (hb : b.length = 100) :
    New (b ++ rest) = .ok { file := rest, Header := some (headerAt b), bytesRead := 50 } := by
  simp only [New, GetHeader_eq { file := b ++ rest, Header := none, bytesRead := 0 } b rest hb rfl]
  rfl

theorem headerAt_fields_congr (b c : List Byte)
    (h : ∀ i, i < 4 ∨ 24 ≤ i → byteAt c i = byteAt b i) : headerAt c = headerAt b := by
  have e0 : ∀ i, i < 4 → byteAt c i = byteAt b i := fun i hi => h i (Or.inl hi)
  have e1 : ∀ i, 24 ≤ i → byteAt c i = byteAt b i := fun i hi => h i (Or.inr hi)
  simp only [headerAt, be32At, le16At, le64At]
  simp (disch := omega) only [e0, e1]

theorem le32At_mod_eq_le16At (b : List Byte) (i : Nat) : le32At b i % 2 ^ 16 = le16At b i := by
  have h0 := byteAt_lt b i
  have h1 := byteAt_lt b (i + 1)
  simp only [le32At, le16At]
  norm_num
  omega

theorem le64At_lt (b : List Byte) (i : Nat) : le64At b i < 2 ^ 64 := by
  have h0 := byteAt_lt b i
  have h1 := byteAt_lt b (i + 1)
  have h2 := byteAt_lt b (i + 2)
  have h3 := byteAt_lt b (i + 3)
  have h4 := byteAt_lt b (i + 4)
  have h5 := byteAt_lt b (i + 5)
  have h6 := byteAt_lt b (i + 6)
  have h7 := byteAt_lt b (i + 7)
  simp only [le64At]
  norm_num
  omega

theorem le32At_lt (b : List Byte) (i : Nat) : le32At b i < 2 ^ 32 := by
  have h0 := byteAt_lt b i
  have h1 := byteAt_lt b (i + 1)
  have h2 := byteAt_lt b (i + 2)
  have h3 := byteAt_lt b (i + 3)
  simp only [le32At]
  norm_num
  omega

theorem be32At_lt (b : List Byte) (i : Nat) : be32At b i < 2 ^ 32 := by
  have h0 := byteAt_lt b i
  have h1 := byteAt_lt b (i + 1)
  have h2 := byteAt_lt b (i + 2)
  have h3 := byteAt_lt b (i + 3)
  simp only [be32At]
  norm_num
  omega

/-! ## The header reader -/

/-- C1: on every stream whose first 100 bytes are `b`, `GetHeader` succeeds and so does
`New`, which stores the same header; the header has `FileCode` the big-endian uint32
of `b[0..3]`, `FileLength` the big-endian uint32 of `b[24..27]`, `Version` the
little-endian uint16 of `b[28..29]` (the low 16 bits of the 4-byte field at 28..31)
and `ShapeType` the little-endian uint16 of `b[32..33]` (the low 16 bits of the field
at 32..35); every stream whose first 100 bytes agree with `b` outside bytes 4..23
gives the same header. -/
theorem C1_GetHeader_fields (b rest : List Byte) (d : Decoder) (hb : b.length = 100)
    (hd : d.file = b ++ rest) :
    ∃ h : Header,
      (GetHeader d).2 = .ok h ∧
      (∃ d0 : Decoder, New (b ++ rest) = .ok d0 ∧ d0.Header = some h) ∧
      h.FileCode
        = Int.ofNat (byteAt b 0 * 2 ^ 24 + byteAt b 1 * 2 ^ 16 + byteAt b 2 * 2 ^ 8 + byteAt b 3) ∧
      h.FileLength
        = Int.ofNat (byteAt b 24 * 2 ^ 24 + byteAt b 25 * 2 ^ 16 + byteAt b 26 * 2 ^ 8
            + byteAt b 27) ∧
      h.Version = Int.ofNat (byteAt b 28 + byteAt b 29 * 2 ^ 8) ∧
      h.Version = Int.ofNat (le32At b 28 % 2 ^ 16) ∧
      h.ShapeType = Int.ofNat (byteAt b 32 + byteAt b 33 * 2 ^ 8) ∧
      h.ShapeType = Int.ofNat (le32At b 32 % 2 ^ 16) ∧
      ∀ (c rest1 : List Byte) (d1 : Decoder), c.length = 100 → d1.file = c ++ rest1 →
        (∀ i, i < 4 ∨ 24 ≤ i → byteAt c i = byteAt b i) → (GetHeader d1).2 = .ok h := by
  refine ⟨headerAt b, ?_, ⟨_, New_eq b rest hb, rfl⟩, rfl, rfl, rfl, ?_, rfl, ?_, ?_⟩
  · rw [GetHeader_eq d b rest hb hd]
  · rw [le32At_mod_eq_le16At]; rfl
  · rw [le32At_mod_eq_le16At]; rfl
  · intro c rest1 d1 hc hd1 hagree
    rw [GetHeader_eq d1 c rest1 hc hd1, headerAt_fields_congr b c hagree]

/-- C1 at the sample file: the header fields are 9994, 156, 1000 and 5, and the
header with bytes 4..23 overwritten decodes to the same value. -/
theorem C1_GetHeader_fields_witness :
    sampleHeader.length = 100 ∧
    ∃ h : Header,
      (GetHeader { file := sampleFile, Header := none, bytesRead := 0 }).2 = .ok h ∧
      (∃ d0 : Decoder, New sampleFile = .ok d0 ∧ d0.Header = some h) ∧
      h.FileCode = 9994 ∧ h.FileLength = 156 ∧ h.Version = 1000 ∧ h.ShapeType = 5 ∧
      (GetHeader { file := sampleHeaderAlt, Header := none, bytesRead := 7 }).2 = .ok h := by
  refine ⟨by decide, ?_⟩
  obtain ⟨h, h1, h2, h3, h4, h5, _, h6, _, h7⟩ :=
    C1_GetHeader_fields sampleHeader sampleRecords
      { file := sampleFile, Header := none, bytesRead := 0 } (by decide) rfl
  refine ⟨h, h1, h2, by rw [h3]; decide, by rw [h4]; decide, by rw [h5]; decide,
    by rw [h6]; decide, ?_⟩
  exact h7 sampleHeaderAlt [] { file := sampleHeaderAlt, Header := none, bytesRead := 7 }
    (by decide) (by decide) (by
      intro i hi
      have hcases : i < 4 ∨ (24 ≤ i ∧ i < 100) ∨ 100 ≤ i := by omega
      rcases hcases with h | ⟨ha, hb⟩ | h
      · interval_cases i <;> decide
      · interval_cases i <;> decide
      · have e1 : sampleHeaderAlt.length ≤ i := by
          have : sampleHeaderAlt.length = 100 := by decide
          omega
        have e2 : sampleHeader.length ≤ i := by
          have : sampleHeader.length = 100 := by decide
          omega
        unfold byteAt
        rw [List.getD_eq_default _ _ e1, List.getD_eq_default _ _ e2])

/-- C2: for every 100-byte header `b`, the eight bounding-box fields of the header
that `GetHeader` returns, in the order Xmin, Ymin, Xmax, Ymax, Zmin, Zmax, Mmin, Mmax,
have as bit patterns the little-endian uint64 values of `b[36+8k .. 43+8k]`,
`k = 0..7`, each of them a 64-bit pattern. -/
theorem C2_bounding_box_bits (b rest : List Byte) (d : Decoder) (hb : b.length = 100)
    (hd : d.file = b ++ rest) :
    ∃ h : Header,
      (GetHeader d).2 = .ok h ∧
      [h.BoundingBox.Xmin, h.BoundingBox.Ymin, h.BoundingBox.Xmax, h.BoundingBox.Ymax,
        h.BoundingBox.Zmin, h.BoundingBox.Zmax, h.BoundingBox.Mmin, h.BoundingBox.Mmax].map
          math.Float64bits
        = (List.range 8).map (fun k =>
            byteAt b (36 + 8 * k) + byteAt b (37 + 8 * k) * 2 ^ 8 + byteAt b (38 + 8 * k) * 2 ^ 16
            + byteAt b (39 + 8 * k) * 2 ^ 24 + byteAt b (40 + 8 * k) * 2 ^ 32
            + byteAt b (41 + 8 * k) * 2 ^ 40 + byteAt b (42 + 8 * k) * 2 ^ 48
            + byteAt b (43 + 8 * k) * 2 ^ 56) ∧
      ∀ x ∈ [h.BoundingBox.Xmin, h.BoundingBox.Ymin, h.BoundingBox.Xmax, h.BoundingBox.Ymax,
        h.BoundingBox.Zmin, h.BoundingBox.Zmax, h.BoundingBox.Mmin, h.BoundingBox.Mmax],
        math.Float64bits x < 2 ^ 64 := by
  refine ⟨headerAt b, ?_, ?_, ?_⟩
  · rw [GetHeader_eq d b rest hb hd]
  · rfl
  · intro x hx
    simp only [headerAt, List.mem_cons, List.mem_singleton, List.not_mem_nil, or_false] at hx
    rcases hx with h | h | h | h | h | h | h | h <;> subst h <;> exact le64At_lt b _

/-- C2 at the sample file: the first field is the pattern 0x405EDD2F1A9FBE77 of
123.456, and the other seven are those of -45.5, 200.25, 80, 1.5, 2.5, -3 and 4. -/
theorem C2_bounding_box_bits_witness :
    sampleHeader.length = 100 ∧
    ∃ h : Header,
      (GetHeader { file := sampleFile, Header := none, bytesRead := 0 }).2 = .ok h ∧
      [h.BoundingBox.Xmin, h.BoundingBox.Ymin, h.BoundingBox.Xmax, h.BoundingBox.Ymax,
        h.BoundingBox.Zmin, h.BoundingBox.Zmax, h.BoundingBox.Mmin, h.BoundingBox.Mmax].map
          math.Float64bits
        = [0x405EDD2F1A9FBE77, 0xC046C00000000000, 0x4069080000000000, 0x4054000000000000,
           0x3FF8000000000000, 0x4004000000000000, 0xC008000000000000, 0x4010000000000000] := by
  refine ⟨by decide, ?_⟩
  obtain ⟨h, h1, h2, _⟩ :=
    C2_bounding_box_bits sampleHeader sampleRecords
      { file := sampleFile, Header := none, bytesRead := 0 } (by decide) rfl
  exact ⟨h, h1, by rw [h2]; decide⟩

/-- C3: on every stream that supplies fewer than 100 bytes, `New` returns an error
and no `Decoder`, and `GetHeader` returns an error and no `Header` and leaves the
consumed counter and the stored header as they were.  The error is the formatted
`io.EOF` on the empty stream and the formatted `io.ErrUnexpectedEOF` otherwise. -/
theorem C3_short_header_fails (file : List Byte) (d : Decoder) (hlt : file.length < 100)
    (hd : d.file = file) :
    New file = .error (.err (.Errorf (if file = [] then .EOF else .ErrUnexpectedEOF))) ∧
    (GetHeader d).2
      = .error (.err (.Errorf (if file = [] then .EOF else .ErrUnexpectedEOF))) ∧
    (GetHeader d).1.bytesRead = d.bytesRead ∧
    (GetHeader d).1.Header = d.Header := by
  have hr : ReadFull file 100
      = ([], .error (if file = [] then GoError.EOF else GoError.ErrUnexpectedEOF)) := by
    have h1 : ¬ (100 ≤ file.length) := by omega
    cases file with
    | nil => simp [ReadFull]
    | cons a l =>
      have h2 : l.length < 99 := by
        simp only [List.length_cons] at hlt
        omega
      simp [ReadFull, h2]
  refine ⟨?_, ?_, ?_, ?_⟩
  · simp only [New, GetHeader, hr]
  · simp only [GetHeader, hd, hr]
  · simp only [GetHeader, hd, hr]
  · simp only [GetHeader, hd, hr]

/-- C3 at the first 99 bytes of the sample header and at the empty stream. -/
theorem C3_short_header_fails_witness :
    (sampleHeader.take 99).length < 100 ∧
    New (sampleHeader.take 99) = .error (.err (.Errorf .ErrUnexpectedEOF)) ∧
    (GetHeader { file := sampleHeader.take 99, Header := none, bytesRead := 0 }).1.bytesRead = 0 ∧
    New [] = .error (.err (.Errorf .EOF)) :=
  ⟨by decide,
   (C3_short_header_fails (sampleHeader.take 99)
      { file := sampleHeader.take 99, Header := none, bytesRead := 0 } (by decide) rfl).1,
   (C3_short_header_fails (sampleHeader.take 99)
      { file := sampleHeader.take 99, Header := none, bytesRead := 0 } (by decide) rfl).2.2.1,
   (C3_short_header_fails [] { file := [], Header := none, bytesRead := 0 } (by decide) rfl).1⟩

/-! ## Point decoding -/

theorem Float64_quiet_toVal (a : Float64) (h : a.toVal = .nan) : (Float64.quiet a).toVal = .nan := by
  simp only [Float64.toVal] at h
  simp only [Float64.toVal, Float64.quiet]
  split_ifs at h with h1 h2 h3
  split_ifs <;> simp_all <;> omega

theorem Float64_quiet_quiet (a : Float64) :
    Float64.quiet (Float64.quiet a) = Float64.quiet a := by
  by_cases h : a.bits / 2 ^ 51 % 2 = 1
  · simp only [Float64.quiet, h, if_true]
  · have h1 : (a.bits + 2 ^ 51) / 2 ^ 51 % 2 = 1 := by omega
    simp only [Float64.quiet, h, if_false, h1, if_true]

/-- A NaN raw coordinate goes through `x*13 + 1500` and `x*13 - 400` as itself,
quieted. -/
theorem affine_nan (raw c1 c2 : Float64) (h : raw.toVal = .nan) :
    (raw.mul c1).add c2 = Float64.quiet raw ∧ (raw.mul c1).sub c2 = Float64.quiet raw := by
  have hm : raw.mul c1 = Float64.quiet raw := by simp only [Float64.mul, h]
  have hq := Float64_quiet_toVal raw h
  rw [hm]
  constructor
  · simp only [Float64.add, hq, Float64_quiet_quiet]
  · simp only [Float64.sub, hq, Float64_quiet_quiet]

theorem byteAt_append_left (a c : List Byte) (i : Nat) (h : i < a.length) :
    byteAt (a ++ c) i = byteAt a i := by
  unfold byteAt
  rw [List.getD_append _ _ _ _ h]

theorem le64At_append_left (a c : List Byte) (i : Nat) (h : i + 8 ≤ a.length) :
    le64At (a ++ c) i = le64At a i := by
  simp only [le64At]
  rw [byteAt_append_left a c i (by omega), byteAt_append_left a c (i + 1) (by omega),
    byteAt_append_left a c (i + 2) (by omega), byteAt_append_left a c (i + 3) (by omega),
    byteAt_append_left a c (i + 4) (by omega), byteAt_append_left a c (i + 5) (by omega),
    byteAt_append_left a c (i + 6) (by omega), byteAt_append_left a c (i + 7) (by omega)]

theorem le32At_append_left (a c : List Byte) (i : Nat) (h : i + 4 ≤ a.length) :
    le32At (a ++ c) i = le32At a i := by
  simp only [le32At]
  rw [byteAt_append_left a c i (by omega), byteAt_append_left a c (i + 1) (by omega),
    byteAt_append_left a c (i + 2) (by omega), byteAt_append_left a c (i + 3) (by omega)]

theorem pointAt_append_left (a c : List Byte) (i : Nat) (h : i + 16 ≤ a.length) :
    pointAt (a ++ c) i = pointAt a i := by
  simp only [pointAt]
  rw [le64At_append_left a c i (by omega), le64At_append_left a c (i + 8) (by omega)]

/-- One iteration of the loop of `DecodePoints` at an index with 16 bytes below the
capacity. -/
theorem DecodePoints_loop_step (s : ByteSlice) (fuel i : Nat) (acc : List Point)
    (h1 : i < s.len) (h2 : i + 16 ≤ s.cap) :
    DecodePoints.loop s (fuel + 1) i acc
      = DecodePoints.loop s fuel (i + 16) (acc ++ [pointAt (s.data ++ s.spare) i]) := by
  rw [DecodePoints.loop]
  simp only [h1, if_true]
  rw [read_le64 s i (i + 8) (by omega) (by omega)]
  rw [read_le64 s (i + 8) (i + 16) (by omega) (by omega)]
  rfl

/-- The loop of `DecodePoints` on a slice of `16 * k` bytes, from chunk `j` on. -/
theorem DecodePoints_loop_chunks (s : ByteSlice) (k : Nat) (hk : s.len = 16 * k) :
    ∀ (fuel j : Nat) (acc : List Point), j ≤ k → k - j ≤ fuel →
      DecodePoints.loop s fuel (16 * j) acc
        = .ok (acc ++ (List.range' j (k - j)).map (fun t => pointAt s.data (16 * t))) := by
  have hcap : s.len ≤ s.cap := by simp [ByteSlice.len, ByteSlice.cap]
  have hlen : s.data.length = 16 * k := hk
  intro fuel
  induction fuel with
  | zero =>
    intro j acc hj hf
    have hjk : k - j = 0 := by omega
    have hn : ¬ (16 * j < s.len) := by omega
    rw [DecodePoints.loop]
    simp [hn, hjk]
  | succ fuel ih =>
    intro j acc hj hf
    by_cases hlt : j < k
    · rw [DecodePoints_loop_step s fuel (16 * j) acc (by omega) (by omega)]
      rw [show 16 * j + 16 = 16 * (j + 1) by ring]
      rw [ih (j + 1) _ (by omega) (by omega)]
      rw [pointAt_append_left s.data s.spare (16 * j) (by omega)]
      rw [show k - j = (k - (j + 1)) + 1 by omega, List.range'_succ]
      simp
    · have hjk : k - j = 0 := by omega
      have hn : ¬ (16 * j < s.len) := by omega
      rw [DecodePoints.loop]
      simp [hn, hjk]

/-- `DecodePoints` on a slice of `16 * k` bytes. -/
theorem DecodePoints_chunks (s : ByteSlice) (k : Nat) (n : Int) (hk : s.len = 16 * k) :
    DecodePoints s n = .ok ((List.range k).map (fun t => pointAt s.data (16 * t))) := by
  have h := DecodePoints_loop_chunks s k hk s.len 0 [] (by omega) (by omega)
  simp only [Nat.mul_zero, Nat.sub_zero, List.nil_append] at h
  rw [DecodePoints, h, List.range_eq_range']

theorem le64At_window_at (b : List Byte) (lo hi j : Nat) (h : lo + j + 8 ≤ hi) :
    le64At ((b.take hi).drop lo) j = le64At b (lo + j) := by
  simp only [le64At]
  rw [byteAt_window b lo hi j (by omega), byteAt_window b lo hi (j + 1) (by omega),
    byteAt_window b lo hi (j + 2) (by omega), byteAt_window b lo hi (j + 3) (by omega),
    byteAt_window b lo hi (j + 4) (by omega), byteAt_window b lo hi (j + 5) (by omega),
    byteAt_window b lo hi (j + 6) (by omega), byteAt_window b lo hi (j + 7) (by omega)]
  simp only [Nat.add_assoc]

theorem pointAt_window (b : List Byte) (i : Nat) :
    pointAt ((b.drop i).take 16) 0 = pointAt b i := by
  rw [List.take_drop]
  simp only [pointAt]
  rw [le64At_window_at b i (i + 16) 0 (by omega), le64At_window_at b i (i + 16) (0 + 8) (by omega)]
  simp

/-- C9: for every `k` and every byte slice of length `16 * k` (whatever its spare
capacity), `DecodePoints` returns `k` points, the same for every second argument; the
`i`-th point is built from the bytes `b[16i .. 16i+15]` alone, X from the little-endian
float64 at `b[16i..16i+7]` and Y from the one at `b[16i+8..16i+15]`, in input order;
the empty input gives no point. -/
theorem C9_DecodePoints_chunks (s : ByteSlice) (k : Nat) (n : Int)
    (hk : s.data.length = 16 * k) :
    ∃ pts : List Point,
      DecodePoints s n = .ok pts ∧ pts.length = k ∧
      (∀ m : Int, DecodePoints s m = .ok pts) ∧
      (∀ i, i < k → pts[i]? = some (pointAt s.data (16 * i))) ∧
      (∀ i, i < k → pts[i]? = some (pointAt ((s.data.drop (16 * i)).take 16) 0)) ∧
      (k = 0 → pts = []) := by
  refine ⟨(List.range k).map (fun t => pointAt s.data (16 * t)),
    DecodePoints_chunks s k n hk, by simp, fun m => DecodePoints_chunks s k m hk, ?_, ?_, ?_⟩
  · intro i hi
    simp [List.getElem?_map, List.getElem?_range hi]
  · intro i hi
    rw [pointAt_window]
    simp [List.getElem?_map, List.getElem?_range hi]
  · intro h0
    subst h0
    rfl

set_option maxRecDepth 100000 in
set_option exponentiation.threshold 4000 in
/-- C9 at the 32 bytes that encode (1.0, 1.0) then (0.0, 0.0), in a buffer with 5 spare
bytes: two points, in input order; no point for the empty input; and at the 16 bytes
of two NaN coordinates: one point, the two NaN with their quiet bit set. -/
theorem C9_DecodePoints_chunks_witness :
    (rawOneOne ++ rawZeroZero).length = 16 * 2 ∧
    (∃ pts : List Point,
      DecodePoints { data := rawOneOne ++ rawZeroZero, spare := [1, 2, 3, 4, 5] } 7 = .ok pts ∧
      pts.length = 2 ∧
      pts[0]? = some (pointAt rawOneOne 0) ∧ pts[1]? = some (pointAt rawZeroZero 0)) ∧
    DecodePoints { data := [], spare := [] } 0 = .ok [] ∧
    (∃ pts : List Point,
      DecodePoints (ByteSlice.ofList rawNaNs) 0 = .ok pts ∧ pts.length = 1 ∧
      pts[0]? = some { X := { bits := 0x7FF8000000000123 }, Y := { bits := 0xFFF8000000000001 } }) := by
  refine ⟨by decide, ?_, by decide, ?_⟩
  · obtain ⟨pts, h1, h2, _, _, h3, _⟩ :=
      C9_DecodePoints_chunks { data := rawOneOne ++ rawZeroZero, spare := [1, 2, 3, 4, 5] } 2 7
        (by decide)
    exact ⟨pts, h1, h2, h3 0 (by omega), h3 1 (by omega)⟩
  · obtain ⟨pts, h1, h2, _, h3, _, _⟩ :=
      C9_DecodePoints_chunks (ByteSlice.ofList rawNaNs) 1 0 (by decide)
    exact ⟨pts, h1, h2, (h3 0 (by omega)).trans (by decide)⟩

set_option maxRecDepth 100000 in
set_option exponentiation.threshold 4000 in
/-- C10, as the code has it: every point that `DecodePoints` produces from raw
coordinates `(rawX, rawY)` is stored as `X = rawX*13 + 1500` and `Y = rawY*13 - 400`
in float64 arithmetic; the 16 bytes encoding (0.0, 0.0) decode to the point
(1500, -400), and those encoding (1.0, 1.0) decode to (1513, -387).  The patterns
0x4097700000000000, 0xC079000000000000, 0x4097A40000000000 and 0xC078300000000000
are those of 1500, -400, 1513 and -387.  A NaN raw coordinate is stored as that NaN
with its quiet bit set: the raw patterns 0x7FF8000000000123 and 0xFFF0000000000001
give 0x7FF8000000000123 and 0xFFF8000000000001. -/
theorem C10_affine_transform (s : ByteSlice) (k : Nat) (n : Int)
    (hk : s.data.length = 16 * k) :
    (∃ pts : List Point,
      DecodePoints s n = .ok pts ∧
      ∀ i, i < k → ∃ p : Point, pts[i]? = some p ∧
        p.X = ((math.Float64frombits (le64At s.data (16 * i))).mul (Float64.ofNat 13)).add
                (Float64.ofNat 1500) ∧
        p.Y = ((math.Float64frombits (le64At s.data (16 * i + 8))).mul (Float64.ofNat 13)).sub
                (Float64.ofNat 400)) ∧
    DecodePoints (ByteSlice.ofList rawZeroZero) n
      = .ok [{ X := { bits := 0x4097700000000000 }, Y := { bits := 0xC079000000000000 } }] ∧
    DecodePoints (ByteSlice.ofList rawOneOne) n
      = .ok [{ X := { bits := 0x4097A40000000000 }, Y := { bits := 0xC078300000000000 } }] ∧
    Float64.toVal { bits := 0x4097700000000000 } = .fin false (1500 * 2 ^ 42) (-42) ∧
    Float64.toVal { bits := 0xC079000000000000 } = .fin true (400 * 2 ^ 44) (-44) ∧
    Float64.toVal { bits := 0x4097A40000000000 } = .fin false (1513 * 2 ^ 42) (-42) ∧
    Float64.toVal { bits := 0xC078300000000000 } = .fin true (387 * 2 ^ 44) (-44) ∧
    (∀ raw : Float64, raw.toVal = .nan →
      (raw.mul (Float64.ofNat 13)).add (Float64.ofNat 1500) = Float64.quiet raw ∧
      (raw.mul (Float64.ofNat 13)).sub (Float64.ofNat 400) = Float64.quiet raw) ∧
    DecodePoints (ByteSlice.ofList rawNaNs) n
      = .ok [{ X := { bits := 0x7FF8000000000123 }, Y := { bits := 0xFFF8000000000001 } }] := by
  refine ⟨⟨(List.range k).map (fun t => pointAt s.data (16 * t)),
    DecodePoints_chunks s k n hk, ?_⟩, ?_, ?_, by decide, by decide, by decide, by decide,
    fun raw h => ⟨(affine_nan raw _ _ h).1, (affine_nan raw _ _ h).2⟩, ?_⟩
  · intro i hi
    exact ⟨pointAt s.data (16 * i), by simp [List.getElem?_map, List.getElem?_range hi],
      rfl, rfl⟩
  · show DecodePoints (ByteSlice.ofList rawZeroZero) 0 = _
    decide
  · show DecodePoints (ByteSlice.ofList rawOneOne) 0 = _
    decide
  · show DecodePoints (ByteSlice.ofList rawNaNs) 0 = _
    decide

set_option maxRecDepth 100000 in
set_option exponentiation.threshold 4000 in
/-- C10 at the 16 bytes of the raw coordinates (0.5, 0.25): the point is
(1506.5, -396.75), patterns 0x40978A0000000000 and 0xC078CC0000000000. -/
theorem C10_affine_transform_witness :
    ([0, 0, 0, 0, 0, 0, 224, 63, 0, 0, 0, 0, 0, 0, 208, 63] : List Byte).length = 16 * 1 ∧
    ∃ pts : List Point,
      DecodePoints (ByteSlice.ofList [0, 0, 0, 0, 0, 0, 224, 63, 0, 0, 0, 0, 0, 0, 208, 63]) 3
        = .ok pts ∧
      pts[0]? = some { X := { bits := 0x40978A0000000000 }, Y := { bits := 0xC078CC0000000000 } } := by
  refine ⟨by decide, ?_⟩
  obtain ⟨⟨pts, h1, h2⟩, _⟩ :=
    C10_affine_transform (ByteSlice.ofList [0, 0, 0, 0, 0, 0, 224, 63, 0, 0, 0, 0, 0, 0, 208, 63])
      1 3 (by decide)
  obtain ⟨p, hp, hx, hy⟩ := h2 0 (by omega)
  refine ⟨pts, h1, ?_⟩
  rw [hp]
  have ex : p.X = { bits := 0x40978A0000000000 } := by rw [hx]; decide
  have ey : p.Y = { bits := 0xC078CC0000000000 } := by rw [hy]; decide
  cases p
  simp only [Point.mk.injEq, Option.some.injEq] at *
  exact ⟨ex, ey⟩

set_option maxRecDepth 100000 in
set_option exponentiation.threshold 4000 in
/-- C10 as stated fails at the 16 bytes encoding (1.0, 1.0): both raw coordinates are
1.0, and the decoded point is not (1513, -399), whose patterns are 0x4097A40000000000
and 0xC078F00000000000; its Y is -387. -/
theorem C10_counterexample :
    Float64.toVal (math.Float64frombits (le64At rawOneOne 0)) = .fin false (1 * 2 ^ 52) (-52) ∧
    Float64.toVal (math.Float64frombits (le64At rawOneOne 8)) = .fin false (1 * 2 ^ 52) (-52) ∧
    Float64.toVal { bits := 0x4097A40000000000 } = .fin false (1513 * 2 ^ 42) (-42) ∧
    Float64.toVal { bits := 0xC078F00000000000 } = .fin true (399 * 2 ^ 44) (-44) ∧
    DecodePoints (ByteSlice.ofList rawOneOne) 0
      ≠ .ok [{ X := { bits := 0x4097A40000000000 }, Y := { bits := 0xC078F00000000000 } }] ∧
    (∃ p : Point, DecodePoints (ByteSlice.ofList rawOneOne) 0 = .ok [p] ∧
      Float64.toVal p.Y = .fin true (387 * 2 ^ 44) (-44)) := by
  refine ⟨by decide, by decide, by decide, by decide, by decide, ?_⟩
  exact ⟨{ X := { bits := 0x4097A40000000000 }, Y := { bits := 0xC078300000000000 } },
    by decide, by decide⟩

/-! ## The record decoder -/

theorem bind_ok_inv {α β : Type} {x : Outcome α} {f : α → Outcome β} {v : β}
    (h : (x >>= f) = .ok v) : ∃ a, x = .ok a ∧ f a = .ok v := by
  cases x with
  | error e => cases h
  | ok a => exact ⟨a, rfl, h⟩

theorem ok_bind {α β : Type} (a : α) (f : α → Outcome β) : (Except.ok a >>= f) = f a := rfl

theorem slice_ok_inv {s t : ByteSlice} {lo hi : Nat} (h : s.slice lo hi = .ok t) :
    lo ≤ hi ∧ hi ≤ s.cap ∧ t = ⟨((s.data ++ s.spare).take hi).drop lo, (s.data ++ s.spare).drop hi⟩ := by
  unfold ByteSlice.slice at h
  by_cases hc : lo ≤ hi ∧ hi ≤ s.cap
  · rw [if_pos hc] at h
    cases h
    exact ⟨hc.1, hc.2, rfl⟩
  · rw [if_neg hc] at h
    cases h

/-- One iteration of the part-table loop at an index with 4 bytes below the
capacity. -/
theorem partsLoop_step (s : ByteSlice) (fuel i : Nat) (acc : List Int)
    (h1 : i < s.len) (h2 : i + 4 ≤ s.cap) :
    DecodeRecord.partsLoop s (fuel + 1) i acc
      = DecodeRecord.partsLoop s fuel (i + 4) (acc ++ [Int.ofNat (le32At (s.data ++ s.spare) i)]) := by
  rw [DecodeRecord.partsLoop]
  simp only [h1, if_true]
  rw [read_le32 s i (i + 4) (by omega) (by omega)]

/-- The part-table loop on a slice of `4 * k` bytes, from entry `j` on: it collects
the little-endian uint32 values in order. -/
theorem partsLoop_entries (s : ByteSlice) (k : Nat) (hk : s.len = 4 * k) :
    ∀ (fuel j : Nat) (acc : List Int), j ≤ k → k - j ≤ fuel →
      DecodeRecord.partsLoop s fuel (4 * j) acc
        = .ok (acc ++ (List.range' j (k - j)).map (fun t => Int.ofNat (le32At s.data (4 * t)))) := by
  have hcap : s.len ≤ s.cap := by simp [ByteSlice.len, ByteSlice.cap]
  have hlen : s.data.length = 4 * k := hk
  intro fuel
  induction fuel with
  | zero =>
    intro j acc hj hf
    have hjk : k - j = 0 := by omega
    have hn : ¬ (4 * j < s.len) := by omega
    rw [DecodeRecord.partsLoop]
    simp [hn, hjk]
  | succ fuel ih =>
    intro j acc hj hf
    by_cases hlt : j < k
    · rw [partsLoop_step s fuel (4 * j) acc (by omega) (by omega)]
      rw [show 4 * j + 4 = 4 * (j + 1) by ring]
      rw [ih (j + 1) _ (by omega) (by omega)]
      rw [le32At_append_left s.data s.spare (4 * j) (by omega)]
      rw [show k - j = (k - (j + 1)) + 1 by omega, List.range'_succ]
      simp
    · have hjk : k - j = 0 := by omega
      have hn : ¬ (4 * j < s.len) := by omega
      rw [DecodeRecord.partsLoop]
      simp [hn, hjk]

/-- On a body of at least 44 bytes the seven fixed-offset reads of `DecodeRecord`
succeed; what is left is the part table and the points. -/
theorem DecodeRecord_body_fixed (recordNumber recordLenght : Nat) (r : List Byte)
    (h : 44 ≤ r.length) :
    DecodeRecord.body recordNumber recordLenght (ByteSlice.ofList r)
      = ((ByteSlice.ofList r).slice 44 (uint32 (44 + uint32 (4 * le32At r 36))) >>= fun parts =>
          DecodeRecord.partsLoop parts parts.len 0 [] >>= fun _ =>
          (ByteSlice.ofList r).sliceFrom (uint32 (44 + uint32 (4 * le32At r 36))) >>= fun points =>
          DecodePoints points (Int.ofNat recordLenght) >>= fun decodedPoints =>
          .ok { Header := { RecordNumber := Int.ofNat recordNumber
                            ContentLenght := Int.ofNat recordLenght }
                ShapeType := Int.ofNat (le32At r 0)
                Box := { XMin := math.Float64frombits (le64At r 4)
                         YMin := math.Float64frombits (le64At r 12)
                         XMax := math.Float64frombits (le64At r 20)
                         YMax := math.Float64frombits (le64At r 28) }
                NumParts := Int.ofNat (le32At r 36)
                NumPoints := Int.ofNat (le32At r 40)
                Parts := []
                Points := decodedPoints }) := by
  have hcap : (ByteSlice.ofList r).cap = r.length := by simp [ByteSlice.cap, ByteSlice.ofList]
  have hall : (ByteSlice.ofList r).data ++ (ByteSlice.ofList r).spare = r := by
    simp [ByteSlice.ofList]
  unfold DecodeRecord.body
  simp only [ByteSlice.sliceTo]
  rw [read_le32 _ 0 4 (by omega) (by omega)]
  rw [read_le64 _ 4 (4 + 8) (by omega) (by omega)]
  rw [read_le64 _ (4 + 8) (4 + 16) (by omega) (by omega)]
  rw [read_le64 _ (4 + 16) (4 + 24) (by omega) (by omega)]
  rw [read_le64 _ (4 + 24) (4 + 32) (by omega) (by omega)]
  rw [read_le32 _ 36 40 (by omega) (by omega)]
  rw [read_le32 _ 40 44 (by omega) (by omega)]
  rw [hall]
  rfl

/-- A body that `DecodeRecord` decodes has at least 44 bytes. -/
theorem DecodeRecord_body_ok_length {recordNumber recordLenght : Nat} {r : List Byte}
    {rec : PolygonRecord}
    (h : DecodeRecord.body recordNumber recordLenght (ByteSlice.ofList r) = .ok rec) :
    44 ≤ r.length := by
  unfold DecodeRecord.body at h
  obtain ⟨_, _, h⟩ := bind_ok_inv h
  obtain ⟨_, _, h⟩ := bind_ok_inv h
  obtain ⟨_, _, h⟩ := bind_ok_inv h
  obtain ⟨_, _, h⟩ := bind_ok_inv h
  obtain ⟨_, _, h⟩ := bind_ok_inv h
  obtain ⟨_, _, h⟩ := bind_ok_inv h
  obtain ⟨_, _, h⟩ := bind_ok_inv h
  obtain ⟨_, _, h⟩ := bind_ok_inv h
  obtain ⟨_, _, h⟩ := bind_ok_inv h
  obtain ⟨_, _, h⟩ := bind_ok_inv h
  obtain ⟨_, _, h⟩ := bind_ok_inv h
  obtain ⟨_, _, h⟩ := bind_ok_inv h
  obtain ⟨t, ht, h⟩ := bind_ok_inv h
  have := (slice_ok_inv ht).2.1
  simpa [ByteSlice.cap, ByteSlice.ofList] using this

theorem ReadFull_ok (file : List Byte) (n : Nat) (h : n ≤ file.length) :
    ReadFull file n = (file.drop n, .ok (file.take n)) := by
  simp [ReadFull, h]

theorem ReadFull_short (file : List Byte) (n : Nat) (h : file.length < n) :
    ReadFull file n
      = ([], .error (if file.length = 0 then GoError.EOF else GoError.ErrUnexpectedEOF)) := by
  have h1 : ¬ (n ≤ file.length) := by omega
  unfold ReadFull
  rw [if_neg h1]
  by_cases h0 : file.length = 0
  · rw [if_pos h0, if_pos h0]
  · rw [if_neg h0, if_neg h0]

theorem DecodeRecord_header_eq (h : List Byte) (hh : h.length = 8) :
    DecodeRecord.header (ByteSlice.ofList h) = .ok (be32At h 0, be32At h 4) := by
  have hcap : (ByteSlice.ofList h).cap = 8 := by simp [ByteSlice.cap, ByteSlice.ofList, hh]
  have hlen : (ByteSlice.ofList h).len = 8 := by simp [ByteSlice.len, ByteSlice.ofList, hh]
  have hall : (ByteSlice.ofList h).data ++ (ByteSlice.ofList h).spare = h := by
    simp [ByteSlice.ofList]
  unfold DecodeRecord.header
  simp only [ByteSlice.sliceTo, ByteSlice.sliceFrom, hlen]
  rw [read_be32 _ 0 4 (by omega) (by omega)]
  rw [read_be32 _ 4 8 (by omega) (by omega)]
  rw [hall]
  rfl

/-- `DecodeRecord` before the end of the records, on a file that starts with an
8-byte record header `h` and the body `r` that `h` announces. -/
theorem DecodeRecord_eq (d : Decoder) (hdr : Header) (h r rest : List Byte)
    (hH : d.Header = some hdr) (hlt : d.bytesRead < hdr.FileLength)
    (hd : d.file = h ++ (r ++ rest)) (hh : h.length = 8)
    (hr : r.length = uint32 (be32At h 4 * 2)) :
    DecodeRecord d
      = ({ d with file := rest
                  bytesRead := int64 (d.bytesRead + int64 (Int.ofNat (be32At h 4) + 4)) },
          DecodeRecord.body (be32At h 0) (be32At h 4) (ByteSlice.ofList r)) := by
  have hnge : ¬ (d.bytesRead ≥ hdr.FileLength) := by omega
  unfold DecodeRecord
  simp only [hH, hnge, if_false, hd, ReadFull_append h (r ++ rest) 8 hh,
    DecodeRecord_header_eq h hh, ReadFull_append r rest _ hr]

/-- A successful `DecodeRecord` read an 8-byte record header `h` and the body `r` that
`h` announces, below the declared file length. -/
theorem DecodeRecord_ok_inv (d : Decoder) (rec : PolygonRecord)
    (hok : (DecodeRecord d).2 = .ok rec) :
    ∃ (hdr : Header) (h r rest : List Byte),
      d.Header = some hdr ∧ d.bytesRead < hdr.FileLength ∧ d.file = h ++ (r ++ rest) ∧
      h.length = 8 ∧ r.length = uint32 (be32At h 4 * 2) ∧
      DecodeRecord.body (be32At h 0) (be32At h 4) (ByteSlice.ofList r) = .ok rec := by
  cases hH : d.Header with
  | none =>
    simp [DecodeRecord, hH] at hok
  | some hdr =>
    by_cases hge : d.bytesRead ≥ hdr.FileLength
    · simp [DecodeRecord, hH, hge] at hok
    · by_cases h8 : 8 ≤ d.file.length
      · have hh : (d.file.take 8).length = 8 := by simp [List.length_take, h8]
        by_cases h2 : uint32 (be32At (d.file.take 8) 4 * 2) ≤ (d.file.drop 8).length
        · have hr : ((d.file.drop 8).take (uint32 (be32At (d.file.take 8) 4 * 2))).length
              = uint32 (be32At (d.file.take 8) 4 * 2) := by
            rw [List.length_take, Nat.min_eq_left h2]
          have hd : d.file = d.file.take 8
              ++ ((d.file.drop 8).take (uint32 (be32At (d.file.take 8) 4 * 2))
                ++ (d.file.drop 8).drop (uint32 (be32At (d.file.take 8) 4 * 2))) := by
            rw [List.take_append_drop, List.take_append_drop]
          refine ⟨hdr, _, _, _, rfl, by omega, hd, hh, hr, ?_⟩
          rw [DecodeRecord_eq d hdr _ _ _ hH (by omega) hd hh hr] at hok
          exact hok
        · exfalso
          have h2lt : (d.file.drop 8).length < uint32 (be32At (d.file.take 8) 4 * 2) := by omega
          simp [DecodeRecord, hH, hge, ReadFull_ok d.file 8 h8, DecodeRecord_header_eq _ hh,
            ReadFull_short _ _ h2lt] at hok
      · exfalso
        have h8lt : d.file.length < 8 := by omega
        simp [DecodeRecord, hH, hge, ReadFull_short _ _ h8lt] at hok

theorem pointAt_window_at (b : List Byte) (lo hi j : Nat) (h : lo + j + 16 ≤ hi) :
    pointAt ((b.take hi).drop lo) j = pointAt b (lo + j) := by
  simp only [pointAt]
  rw [le64At_window_at b lo hi j (by omega), le64At_window_at b lo hi (j + 8) (by omega)]
  simp only [Nat.add_assoc]

theorem uint32_of_lt (x : Nat) (h : x < 2 ^ 32) : uint32 x = x := by
  unfold uint32
  exact Nat.mod_eq_of_lt (by simpa using h)

/-- The decoding of a well-formed body: `44 + 4*numParts + 16*numPoints` bytes, fewer
than `2^32`.  No statement panics, and the points are those of the 16-byte chunks
after the part table. -/
theorem DecodeRecord_body_wellformed (recordNumber recordLenght : Nat) (r : List Byte)
    (hlen : r.length = 44 + 4 * le32At r 36 + 16 * le32At r 40) (hsmall : r.length < 2 ^ 32) :
    DecodeRecord.body recordNumber recordLenght (ByteSlice.ofList r)
      = .ok { Header := { RecordNumber := Int.ofNat recordNumber
                          ContentLenght := Int.ofNat recordLenght }
              ShapeType := Int.ofNat (le32At r 0)
              Box := { XMin := math.Float64frombits (le64At r 4)
                       YMin := math.Float64frombits (le64At r 12)
                       XMax := math.Float64frombits (le64At r 20)
                       YMax := math.Float64frombits (le64At r 28) }
              NumParts := Int.ofNat (le32At r 36)
              NumPoints := Int.ofNat (le32At r 40)
              Parts := []
              Points := (List.range (le32At r 40)).map
                (fun j => pointAt r (44 + 4 * le32At r 36 + 16 * j)) } := by
  have hoff : uint32 (44 + uint32 (4 * le32At r 36)) = 44 + 4 * le32At r 36 := by
    rw [uint32_of_lt (4 * le32At r 36) (by omega), uint32_of_lt _ (by omega)]
  rw [DecodeRecord_body_fixed recordNumber recordLenght r (by omega), hoff]
  rw [slice_ofList r 44 (44 + 4 * le32At r 36) (by omega) (by omega)]
  have hpl : (ByteSlice.mk ((r.take (44 + 4 * le32At r 36)).drop 44)
      (r.drop (44 + 4 * le32At r 36))).len = 4 * le32At r 36 := by
    simp only [ByteSlice.len]
    rw [window_length r 44 _ (by omega)]
    omega
  have hparts := partsLoop_entries _ (le32At r 36) hpl (4 * le32At r 36) 0 [] (by omega) (by omega)
  simp only [Nat.mul_zero] at hparts
  have hsf : (ByteSlice.ofList r).sliceFrom (44 + 4 * le32At r 36)
      = .ok ⟨(r.take r.length).drop (44 + 4 * le32At r 36), r.drop r.length⟩ := by
    unfold ByteSlice.sliceFrom
    have : (ByteSlice.ofList r).len = r.length := rfl
    rw [this, slice_ofList r _ _ (by omega) (by omega)]
  have hql : (ByteSlice.mk ((r.take r.length).drop (44 + 4 * le32At r 36))
      (r.drop r.length)).len = 16 * le32At r 40 := by
    simp only [ByteSlice.len]
    rw [window_length r _ _ (by omega)]
    omega
  have hpts := DecodePoints_chunks _ (le32At r 40) (Int.ofNat recordLenght) hql
  have hmap : (List.range (le32At r 40)).map
        (fun t => pointAt ((r.take r.length).drop (44 + 4 * le32At r 36)) (16 * t))
      = (List.range (le32At r 40)).map (fun j => pointAt r (44 + 4 * le32At r 36 + 16 * j)) := by
    apply List.map_congr_left
    intro t ht
    have ht1 : t < le32At r 40 := List.mem_range.mp ht
    exact pointAt_window_at r _ r.length (16 * t) (by omega)
  rw [ok_bind, hpl, hparts, ok_bind, hsf, ok_bind, hpts, ok_bind, hmap]

/-- C5: whenever the consumed counter is at or above `Header.FileLength`,
`DecodeRecord` returns no record and `io.EOF` and leaves the decoder as it was (no byte
read, counter and header unchanged); so any number of further calls return `io.EOF`
again. -/
theorem C5_end_of_records (d : Decoder) (hdr : Header) (hH : d.Header = some hdr)
    (hge : d.bytesRead ≥ hdr.FileLength) :
    DecodeRecord d = (d, .error (.err .EOF)) ∧
    ∀ n : Nat, DecodeRecord.calls n d = (d, List.replicate n (.error (.err .EOF))) := by
  have h1 : DecodeRecord d = (d, .error (.err .EOF)) := by
    simp only [DecodeRecord, hH, hge, if_true]
  refine ⟨h1, ?_⟩
  intro n
  induction n with
  | zero => rfl
  | succ n ih => simp only [DecodeRecord.calls, h1, ih, List.replicate_succ]

/-- C5 at a decoder whose counter equals the declared file length of the sample
header and at one whose counter is above it, both with unread bytes left. -/
theorem C5_end_of_records_witness :
    DecodeRecord { file := [1, 2, 3], Header := some (headerAt sampleHeader), bytesRead := 156 }
      = ({ file := [1, 2, 3], Header := some (headerAt sampleHeader), bytesRead := 156 },
          .error (.err .EOF)) ∧
    DecodeRecord.calls 3
        { file := sampleRecords, Header := some (headerAt sampleHeader), bytesRead := 200 }
      = ({ file := sampleRecords, Header := some (headerAt sampleHeader), bytesRead := 200 },
          [.error (.err .EOF), .error (.err .EOF), .error (.err .EOF)]) :=
  ⟨(C5_end_of_records _ (headerAt sampleHeader) rfl (by decide)).1,
   (C5_end_of_records _ (headerAt sampleHeader) rfl (by decide)).2 3⟩

/-- C6: every record that `DecodeRecord` returns was read from an 8-byte record header
`h` and a body `r` at the front of the file, and has `Header.RecordNumber` the
big-endian uint32 of `h[0..3]`, `Header.ContentLenght` the big-endian uint32 of
`h[4..7]`, `ShapeType` the little-endian uint32 of `r[0..3]`, the four `Box` fields with
bit patterns the little-endian uint64 of `r[4..11]`, `r[12..19]`, `r[20..27]`,
`r[28..35]`, `NumParts` the little-endian uint32 of `r[36..39]` and `NumPoints` that
of `r[40..43]`. -/
theorem C6_record_fields (d : Decoder) (rec : PolygonRecord)
    (hok : (DecodeRecord d).2 = .ok rec) :
    ∃ h r rest : List Byte,
      d.file = h ++ (r ++ rest) ∧ h.length = 8 ∧ r.length = (be32At h 4 * 2) % 2 ^ 32 ∧
      (DecodeRecord d).1.file = rest ∧
      rec.Header.RecordNumber = Int.ofNat (be32At h 0) ∧
      rec.Header.ContentLenght = Int.ofNat (be32At h 4) ∧
      rec.ShapeType = Int.ofNat (le32At r 0) ∧
      math.Float64bits rec.Box.XMin = le64At r 4 ∧
      math.Float64bits rec.Box.YMin = le64At r 12 ∧
      math.Float64bits rec.Box.XMax = le64At r 20 ∧
      math.Float64bits rec.Box.YMax = le64At r 28 ∧
      rec.NumParts = Int.ofNat (le32At r 36) ∧
      rec.NumPoints = Int.ofNat (le32At r 40) := by
  obtain ⟨hdr, h, r, rest, hH, hlt, hd, hh, hr, hbody⟩ := DecodeRecord_ok_inv d rec hok
  have h44 := DecodeRecord_body_ok_length hbody
  rw [DecodeRecord_body_fixed _ _ r h44] at hbody
  obtain ⟨_, _, hbody⟩ := bind_ok_inv hbody
  obtain ⟨_, _, hbody⟩ := bind_ok_inv hbody
  obtain ⟨_, _, hbody⟩ := bind_ok_inv hbody
  obtain ⟨pts, _, hbody⟩ := bind_ok_inv hbody
  cases hbody
  refine ⟨h, r, rest, hd, hh, hr, ?_, rfl, rfl, rfl, rfl, rfl, rfl, rfl, rfl, rfl⟩
  rw [DecodeRecord_eq d hdr h r rest hH hlt hd hh hr]

/-- Every record that `DecodeRecord` returns has the nil `Parts`. -/
theorem DecodeRecord_Parts_nil (d : Decoder) (rec : PolygonRecord)
    (hok : (DecodeRecord d).2 = .ok rec) : rec.Parts = [] := by
  obtain ⟨hdr, h, r, rest, hH, hlt, hd, hh, hr, hbody⟩ := DecodeRecord_ok_inv d rec hok
  have h44 := DecodeRecord_body_ok_length hbody
  rw [DecodeRecord_body_fixed _ _ r h44] at hbody
  obtain ⟨_, _, hbody⟩ := bind_ok_inv hbody
  obtain ⟨_, _, hbody⟩ := bind_ok_inv hbody
  obtain ⟨_, _, hbody⟩ := bind_ok_inv hbody
  obtain ⟨pts, _, hbody⟩ := bind_ok_inv hbody
  cases hbody
  rfl

theorem New_sampleFile : New sampleFile = .ok sampleDecoder :=
  New_eq sampleHeader sampleRecords (by decide)

set_option maxRecDepth 100000 in
set_option exponentiation.threshold 4000 in
theorem DecodeRecord_sampleDecoder :
    (DecodeRecord sampleDecoder).2 = .ok sampleRecord1Decoded := by decide

/-- C6 at the first record of the sample file. -/
theorem C6_record_fields_witness :
    (DecodeRecord sampleDecoder).2 = .ok sampleRecord1Decoded ∧
    ∃ h r rest : List Byte,
      sampleDecoder.file = h ++ (r ++ rest) ∧ h.length = 8 ∧
      r.length = (be32At h 4 * 2) % 2 ^ 32 ∧
      (DecodeRecord sampleDecoder).1.file = rest ∧
      sampleRecord1Decoded.Header.RecordNumber = Int.ofNat (be32At h 0) ∧
      sampleRecord1Decoded.Header.ContentLenght = Int.ofNat (be32At h 4) ∧
      sampleRecord1Decoded.ShapeType = Int.ofNat (le32At r 0) ∧
      math.Float64bits sampleRecord1Decoded.Box.XMin = le64At r 4 ∧
      math.Float64bits sampleRecord1Decoded.Box.YMin = le64At r 12 ∧
      math.Float64bits sampleRecord1Decoded.Box.XMax = le64At r 20 ∧
      math.Float64bits sampleRecord1Decoded.Box.YMax = le64At r 28 ∧
      sampleRecord1Decoded.NumParts = Int.ofNat (le32At r 36) ∧
      sampleRecord1Decoded.NumPoints = Int.ofNat (le32At r 40) :=
  ⟨DecodeRecord_sampleDecoder,
   C6_record_fields sampleDecoder sampleRecord1Decoded DecodeRecord_sampleDecoder⟩

set_option maxRecDepth 100000 in
set_option exponentiation.threshold 4000 in
/-- C7 fails on the code: on the sample file, whose first record has `numParts = 2`,
on-disk part table `[0, 3]` and 5 points, `DecodeRecord` returns a record with
`NumParts = 2` and 5 points but with the nil `Parts`.  The part-table loop does
compute `[0, 3]`; no statement stores it in the record. -/
theorem C7_parts_not_stored :
    ∃ (d0 : Decoder) (rec : PolygonRecord),
      New sampleFile = .ok d0 ∧ (DecodeRecord d0).2 = .ok rec ∧
      rec.NumParts = 2 ∧ rec.NumPoints = 5 ∧ rec.Points.length = 5 ∧
      [le32At sampleRecord1Body 44, le32At sampleRecord1Body 48] = [0, 3] ∧
      DecodeRecord.partsLoop
          { data := (sampleRecord1Body.take 52).drop 44, spare := sampleRecord1Body.drop 52 } 8 0 []
        = .ok [0, 3] ∧
      rec.Parts = [] ∧ rec.Parts ≠ [0, 3] ∧ Int.ofNat rec.Parts.length ≠ rec.NumParts := by
  refine ⟨sampleDecoder, sampleRecord1Decoded, New_sampleFile, DecodeRecord_sampleDecoder,
    by decide, by decide, by decide, by decide, by decide, by decide, by decide, by decide⟩

/-- C8: when `DecodeRecord` reads, below the declared file length, a record whose body
`r` is well formed (`2 * contentLength = len(r) = 44 + 4*numParts + 16*numPoints`, below
`2^32`), it succeeds, and the returned `Points` is `DecodePoints` of the bytes
`r[44+4*numParts ..]`: exactly `NumPoints` points, the `i`-th built from the `i`-th
16-byte chunk after the part table. -/
theorem C8_record_points (d : Decoder) (hdr : Header) (h r rest : List Byte)
    (hH : d.Header = some hdr) (hlt : d.bytesRead < hdr.FileLength)
    (hd : d.file = h ++ (r ++ rest)) (hh : h.length = 8)
    (hr : r.length = 2 * be32At h 4)
    (hwf : r.length = 44 + 4 * le32At r 36 + 16 * le32At r 40) (hsmall : r.length < 2 ^ 32) :
    ∃ rec : PolygonRecord,
      (DecodeRecord d).2 = .ok rec ∧
      DecodePoints (ByteSlice.ofList (r.drop (44 + 4 * le32At r 36))) rec.Header.ContentLenght
        = .ok rec.Points ∧
      rec.Points.length = le32At r 40 ∧
      rec.NumPoints = Int.ofNat rec.Points.length ∧
      ∀ i, i < le32At r 40 →
        rec.Points[i]? = some (pointAt ((r.drop (44 + 4 * le32At r 36 + 16 * i)).take 16) 0) := by
  have hr1 : r.length = uint32 (be32At h 4 * 2) := by
    rw [uint32_of_lt _ (by omega)]
    omega
  refine ⟨recordAt h r, ?_, ?_, ?_, ?_, ?_⟩
  · rw [DecodeRecord_eq d hdr h r rest hH hlt hd hh hr1,
      DecodeRecord_body_wellformed _ _ r hwf hsmall]
    rfl
  · have hl : (ByteSlice.ofList (r.drop (44 + 4 * le32At r 36))).len = 16 * le32At r 40 := by
      simp only [ByteSlice.len, ByteSlice.ofList, List.length_drop]
      omega
    rw [DecodePoints_chunks _ (le32At r 40) _ hl]
    congr 1
    apply List.map_congr_left
    intro t ht
    have ht1 : t < le32At r 40 := List.mem_range.mp ht
    have e : r.drop (44 + 4 * le32At r 36) = (r.take r.length).drop (44 + 4 * le32At r 36) := by
      rw [List.take_length]
    show pointAt (r.drop (44 + 4 * le32At r 36)) (16 * t) = _
    rw [e, pointAt_window_at r _ r.length (16 * t) (by omega)]
  · simp [recordAt]
  · simp [recordAt]
  · intro i hi
    rw [pointAt_window]
    simp [recordAt, List.getElem?_map, List.getElem?_range hi]

set_option maxRecDepth 100000 in
set_option exponentiation.threshold 4000 in
/-- C8 at the first record of the sample file: the five points, in on-disk order; and
at a well-formed record whose one point has two NaN raw coordinates: the point keeps
them, with their quiet bit set. -/
theorem C8_record_points_witness :
    sampleRecord1Body.length = 44 + 4 * le32At sampleRecord1Body 36 + 16 * le32At sampleRecord1Body 40 ∧
    (∃ rec : PolygonRecord,
      (DecodeRecord sampleDecoder).2 = .ok rec ∧
      DecodePoints (ByteSlice.ofList (sampleRecord1Body.drop 52)) 66 = .ok rec.Points ∧
      rec.Points.length = 5 ∧ rec.NumPoints = 5 ∧ rec.Points = sampleRecord1Decoded.Points) ∧
    nanPointBody.length = 44 + 4 * le32At nanPointBody 36 + 16 * le32At nanPointBody 40 ∧
    (∃ rec : PolygonRecord,
      (DecodeRecord { file := recordHeaderOfLength 30 ++ nanPointBody,
                      Header := some (headerAt (headerOfLength 84)), bytesRead := 50 }).2
        = .ok rec ∧
      rec.Points.length = 1 ∧
      rec.Points[0]?
        = some { X := { bits := 0x7FF8000000000123 }, Y := { bits := 0xFFF8000000000001 } }) := by
  refine ⟨by decide, ?_, by decide, ?_⟩
  · obtain ⟨rec, h1, h2, h3, h4, _⟩ :=
      C8_record_points sampleDecoder (headerAt sampleHeader) sampleRecord1Header sampleRecord1Body
        (sampleRecord2Header ++ sampleRecord2Body) rfl (by decide) (by decide) (by decide)
        (by decide) (by decide) (by decide)
    have e : rec = sampleRecord1Decoded := by
      have := DecodeRecord_sampleDecoder
      rw [h1] at this
      exact Except.ok.inj this
    subst e
    exact ⟨sampleRecord1Decoded, h1, h2, by decide, by decide, rfl⟩
  · obtain ⟨rec, h1, _, h3, _, h5⟩ :=
      C8_record_points
        { file := recordHeaderOfLength 30 ++ nanPointBody,
          Header := some (headerAt (headerOfLength 84)), bytesRead := 50 }
        (headerAt (headerOfLength 84)) (recordHeaderOfLength 30) nanPointBody [] rfl
        (by decide) (by decide) (by decide) (by decide) (by decide) (by decide)
    exact ⟨rec, h1, h3.trans (by decide), (h5 0 (by decide)).trans (by decide)⟩

/-! ## Record framing -/

theorem int64_of_bounds (x : Int) (h1 : -9223372036854775808 ≤ x)
    (h2 : x < 9223372036854775808) : int64 x = x := by
  unfold int64
  omega

theorem calls_succ (n : Nat) (d : Decoder) :
    DecodeRecord.calls (n + 1) d
      = ((DecodeRecord.calls n (DecodeRecord d).1).1,
          (DecodeRecord d).2 :: (DecodeRecord.calls n (DecodeRecord d).1).2) := rfl

theorem recordAt_matches (h r : List Byte) : RecordMatches h r (recordAt h r) :=
  ⟨rfl, rfl, rfl, rfl, rfl, rfl, rfl, rfl, rfl, rfl⟩

/-- Framing from any decoder state: with the counter `recordsWords recs` below the
declared file length and the well-formed records `recs` next in the file, the calls
return the records in order and then `io.EOF`. -/
theorem calls_wellformed (hdr : Header) (rest : List Byte) (hfl : hdr.FileLength < 4294967296) :
    ∀ (recs : List (List Byte × List Byte)) (d : Decoder),
      (∀ p ∈ recs, WellFormedRecord p ∧ be32At p.1 4 < 2 ^ 31) →
      d.Header = some hdr → 0 ≤ d.bytesRead →
      d.bytesRead + Int.ofNat (recordsWords recs) = hdr.FileLength →
      d.file = recordsBytes recs ++ rest →
      DecodeRecord.calls (recs.length + 1) d
        = ({ d with file := rest, bytesRead := hdr.FileLength },
            (recs.map (fun p => Except.ok (recordAt p.1 p.2))) ++ [.error (.err .EOF)]) := by
  intro recs
  induction recs with
  | nil =>
    intro d _ hH h0 hw hd
    have hb : d.bytesRead = hdr.FileLength := by
      simpa [recordsWords] using hw
    have hf : d.file = rest := by simpa [recordsBytes] using hd
    have h1 : DecodeRecord d = (d, .error (.err .EOF)) := by
      simp only [DecodeRecord, hH, hb, ge_iff_le, le_refl, if_true]
    simp only [List.length_nil, DecodeRecord.calls, h1, List.map_nil, List.nil_append]
    rw [← hb, ← hf]
  | cons p ps ih =>
    intro d hwf hH h0 hw hd
    obtain ⟨⟨hh, hr, hshape⟩, hc⟩ := hwf p (List.mem_cons_self _ _)
    have hsplit : recordsWords (p :: ps) = 4 + be32At p.1 4 + recordsWords ps := by
      simp [recordsWords, Nat.add_assoc]
    have hw1 : d.bytesRead + (4 + Int.ofNat (be32At p.1 4)) + Int.ofNat (recordsWords ps)
        = hdr.FileLength := by
      rw [← hw, hsplit]
      simp only [Int.ofNat_eq_coe]
      omega
    have hps : (0 : Int) ≤ Int.ofNat (recordsWords ps) := Int.ofNat_zero_le _
    have hcn : (0 : Int) ≤ Int.ofNat (be32At p.1 4) := Int.ofNat_zero_le _
    have hd1 : d.file = p.1 ++ (p.2 ++ (recordsBytes ps ++ rest)) := by
      rw [hd]
      simp [recordsBytes, List.append_assoc]
    have hsmall : p.2.length < 2 ^ 32 := by omega
    have hr1 : p.2.length = uint32 (be32At p.1 4 * 2) := by
      rw [uint32_of_lt _ (by omega)]
      omega
    have hstep := DecodeRecord_eq d hdr p.1 p.2 (recordsBytes ps ++ rest) hH (by omega) hd1 hh hr1
    rw [DecodeRecord_body_wellformed _ _ p.2 (by omega) hsmall] at hstep
    have hcnt : int64 (d.bytesRead + int64 (Int.ofNat (be32At p.1 4) + 4))
        = d.bytesRead + (4 + Int.ofNat (be32At p.1 4)) := by
      rw [int64_of_bounds (Int.ofNat (be32At p.1 4) + 4) (by omega) (by omega)]
      rw [int64_of_bounds _ (by omega) (by omega)]
      ring
    rw [hcnt] at hstep
    have ih1 := ih { d with file := recordsBytes ps ++ rest
                            bytesRead := d.bytesRead + (4 + Int.ofNat (be32At p.1 4)) }
      (fun q hq => hwf q (List.mem_cons_of_mem _ hq)) hH (by simp only; omega) hw1 rfl
    rw [List.length_cons, calls_succ, hstep]
    dsimp only
    rw [ih1]
    rfl

/-- C4, as the code has it: for every `N` and every stream made of a 100-byte header
and `N` well-formed records (record `i` with content length `c_i < 2^31` words,
`2*c_i = 44 + 4*numParts_i + 16*numPoints_i`, the header's file length being
`50 + sum (4 + c_i)`), the first `N` calls of `DecodeRecord` on the decoder built by
`New` succeed, the `i`-th returning the `i`-th record in on-disk order (every field
but `Parts`), and call `N+1` returns `io.EOF`. -/
theorem C4_record_framing (hdr : List Byte) (recs : List (List Byte × List Byte))
    (rest : List Byte) (hhdr : hdr.length = 100)
    (hwf : ∀ p ∈ recs, WellFormedRecord p ∧ be32At p.1 4 < 2 ^ 31)
    (hfl : be32At hdr 24 = 50 + recordsWords recs) :
    ∃ (d0 dN : Decoder) (outs : List PolygonRecord),
      New (hdr ++ (recordsBytes recs ++ rest)) = .ok d0 ∧
      DecodeRecord.calls (recs.length + 1) d0
        = (dN, outs.map Except.ok ++ [.error (.err .EOF)]) ∧
      outs.length = recs.length ∧
      List.Forall₂ (fun p rec => RecordMatches p.1 p.2 rec) recs outs := by
  have hlt := be32At_lt hdr 24
  have hcalls := calls_wellformed (headerAt hdr) rest
    (by simp only [headerAt, Int.ofNat_eq_coe]; omega) recs
    { file := recordsBytes recs ++ rest, Header := some (headerAt hdr), bytesRead := 50 }
    hwf rfl (by show (0 : Int) ≤ 50; decide)
    (by simp only [headerAt, Int.ofNat_eq_coe]; omega) rfl
  refine ⟨Decoder.mk (recordsBytes recs ++ rest) (some (headerAt hdr)) 50,
    Decoder.mk rest (some (headerAt hdr)) (headerAt hdr).FileLength,
    recs.map (fun p => recordAt p.1 p.2), New_eq hdr _ hhdr, ?_, by simp, ?_⟩
  · rw [hcalls, List.map_map]
    rfl
  · rw [List.forall₂_map_right_iff]
    exact List.forall₂_same.mpr (fun p _ => recordAt_matches p.1 p.2)

set_option maxRecDepth 100000 in
set_option exponentiation.threshold 4000 in
/-- C4 at the sample file (two records): the calls return the two decoded records and
then `io.EOF`; and at a file of one well-formed record whose point has two NaN raw
coordinates: the call returns the record, the point keeping the two NaN with their
quiet bit set, and the next call returns `io.EOF`. -/
theorem C4_record_framing_witness :
    (∃ (d0 dN : Decoder) (outs : List PolygonRecord),
      New sampleFile = .ok d0 ∧
      DecodeRecord.calls 3 d0 = (dN, outs.map Except.ok ++ [.error (.err .EOF)]) ∧
      outs.length = 2 ∧
      List.Forall₂ (fun p rec => RecordMatches p.1 p.2 rec)
        [(sampleRecord1Header, sampleRecord1Body), (sampleRecord2Header, sampleRecord2Body)]
        outs) ∧
    DecodeRecord.calls 3 sampleDecoder
      = ({ file := [], Header := some (headerAt sampleHeader), bytesRead := 156 },
          [.ok sampleRecord1Decoded, .ok sampleRecord2Decoded, .error (.err .EOF)]) ∧
    (∃ (d0 dN : Decoder) (outs : List PolygonRecord),
      New (headerOfLength 84 ++ (recordsBytes [(recordHeaderOfLength 30, nanPointBody)] ++ []))
        = .ok d0 ∧
      DecodeRecord.calls 2 d0 = (dN, outs.map Except.ok ++ [.error (.err .EOF)]) ∧
      outs.length = 1 ∧
      List.Forall₂ (fun p rec => RecordMatches p.1 p.2 rec)
        [(recordHeaderOfLength 30, nanPointBody)] outs) ∧
    (∃ rec : PolygonRecord,
      (DecodeRecord.calls 2
        { file := recordHeaderOfLength 30 ++ nanPointBody,
          Header := some (headerAt (headerOfLength 84)), bytesRead := 50 }).2
        = [.ok rec, .error (.err .EOF)] ∧
      rec.Points
        = [{ X := { bits := 0x7FF8000000000123 }, Y := { bits := 0xFFF8000000000001 } }]) := by
  refine ⟨?_, by decide, ?_, ⟨recordAt (recordHeaderOfLength 30) nanPointBody, by decide,
    by decide⟩⟩
  · have e : sampleFile
        = sampleHeader ++ (recordsBytes [(sampleRecord1Header, sampleRecord1Body),
            (sampleRecord2Header, sampleRecord2Body)] ++ []) := by decide
    rw [e]
    exact C4_record_framing sampleHeader
      [(sampleRecord1Header, sampleRecord1Body), (sampleRecord2Header, sampleRecord2Body)] []
      (by decide)
      (by
        intro p hp
        simp only [List.mem_cons, List.mem_singleton, List.not_mem_nil, or_false] at hp
        rcases hp with rfl | rfl
        · exact ⟨⟨by decide, by decide, by decide⟩, by decide⟩
        · exact ⟨⟨by decide, by decide, by decide⟩, by decide⟩)
      (by decide)
  · exact C4_record_framing (headerOfLength 84) [(recordHeaderOfLength 30, nanPointBody)] []
      (by decide)
      (by
        intro p hp
        simp only [List.mem_singleton] at hp
        subst hp
        exact ⟨⟨by decide, by decide, by decide⟩, by decide⟩)
      (by decide)

/-- C4 as stated fails at one well-formed record of content length `2^31` words: the
body has `2^32 = 44 + 4*(2^30 - 11) + 16*0` bytes and the header declares
`50 + (4 + 2^31)` words, yet the first call of `DecodeRecord` returns no record.  The
`uint32` product `recordLenght*2` is 0, so the body buffer is empty and
`recordBody[:4]` panics. -/
theorem C4_counterexample :
    hugeHeader.length = 100 ∧
    WellFormedRecord (hugeRecordHeader, hugeRecordBody) ∧
    be32At hugeRecordHeader 4 = 2 ^ 31 ∧
    be32At hugeHeader 24 = 50 + recordsWords [(hugeRecordHeader, hugeRecordBody)] ∧
    ∃ d0 : Decoder,
      New (hugeHeader ++ (recordsBytes [(hugeRecordHeader, hugeRecordBody)] ++ [])) = .ok d0 ∧
      (DecodeRecord d0).2 = .error .panic := by
  have hpre : ([5, 0, 0, 0] ++ List.replicate 32 0 ++ [245, 255, 255, 63, 0, 0, 0, 0]
      : List Byte).length = 44 := by decide
  have hlen : hugeRecordBody.length = 4294967296 := by
    simp only [hugeRecordBody, List.length_append, List.length_replicate, List.length_cons,
      List.length_nil]
    norm_num
  have hnp : le32At hugeRecordBody 36 = 1073741813 := by
    unfold hugeRecordBody
    rw [le32At_append_left _ _ 36 (le_of_le_of_eq (by decide : 36 + 4 ≤ 44) hpre.symm)]
    decide
  have hnq : le32At hugeRecordBody 40 = 0 := by
    unfold hugeRecordBody
    rw [le32At_append_left _ _ 40 (le_of_le_of_eq (by decide : 40 + 4 ≤ 44) hpre.symm)]
    decide
  have hc : be32At hugeRecordHeader 4 = 2147483648 := by decide
  refine ⟨by decide, ⟨by decide, ?_, ?_⟩, by rw [hc]; norm_num, ?_, ?_⟩
  · show hugeRecordBody.length = 2 * be32At hugeRecordHeader 4
    rw [hlen, hc]
  · show 2 * be32At hugeRecordHeader 4 = 44 + 4 * le32At hugeRecordBody 36 + 16 * le32At hugeRecordBody 40
    rw [hc, hnp, hnq]
  · simp only [recordsWords, List.map_cons, List.map_nil, List.sum_cons, List.sum_nil, hc]
    decide
  · refine ⟨_, New_eq hugeHeader _ (by decide), ?_⟩
    rw [DecodeRecord_eq _ (headerAt hugeHeader) hugeRecordHeader [] hugeRecordBody rfl
      (by decide) (by simp [recordsBytes]) (by decide) (by decide)]
    decide

/-! ## The shape-type table -/

/-- C15: the lookup in `shapeTypes` gives a name for an integer code exactly when the
code is one of 0, 1, 3, 5, 8, 11, 13, 15, 18, 21, 23, 25, 28, 31; for every other
integer, the negative ones included, it reports absence (`none`), and it is defined
on every integer. -/
theorem C15_shapeTypes_names :
    (∀ code : Int, (∃ name, shapeTypes code = some name) ↔ code ∈ namedShapeCodes) ∧
    (∀ code : Int, code ∉ namedShapeCodes → shapeTypes code = none) ∧
    (∀ code : Int, code < 0 → shapeTypes code = none) ∧
    namedShapeCodes.map shapeTypes
      = [some "Null Shape", some "Point", some "PolyLine", some "Polygon", some "MultiPoint",
         some "PointZ", some "PolyLineZ", some "PolygonZ", some "MultiPointZ", some "PointM",
         some "PolyLineM", some "PolygonM", some "MultiPointM", some "MultiPatch"] := by
  have key : ∀ code : Int, code ∉ namedShapeCodes → shapeTypes code = none := by
    intro code h
    simp only [namedShapeCodes, List.mem_cons, List.mem_singleton, List.not_mem_nil, or_false,
      not_or] at h
    unfold shapeTypes
    split <;> simp_all
  refine ⟨?_, key, ?_, by decide⟩
  · intro code
    constructor
    · rintro ⟨name, hname⟩
      by_contra hn
      rw [key code hn] at hname
      cases hname
    · intro h
      simp only [namedShapeCodes, List.mem_cons, List.mem_singleton, List.not_mem_nil,
        or_false] at h
      rcases h with h | h | h | h | h | h | h | h | h | h | h | h | h | h <;> subst h <;>
        exact ⟨_, rfl⟩
  · intro code hneg
    apply key
    simp only [namedShapeCodes, List.mem_cons, List.mem_singleton, List.not_mem_nil, or_false]
    omega

/-! ## Malformed input -/

set_option maxRecDepth 100000 in
set_option exponentiation.threshold 4000 in
/-- C11 fails on the code: `DecodePoints` panics on a slice whose length is not a
multiple of 16 and whose capacity is its length (8 bytes; 16 + 8 bytes; 16 + 3 bytes),
because the loop runs while `i < len` and then slices `[i:i+8]` and `[i+8:i+16]`.  The
same happens through `DecodeRecord` on a 52-byte body.  When the backing array has
spare capacity the loop does not panic but reads past the length: 8 bytes with 8 spare
bytes give one point, not none. -/
theorem C11_trailing_bytes_panic :
    DecodePoints (ByteSlice.ofList [0, 0, 0, 0, 0, 0, 240, 63]) 0 = .error .panic ∧
    DecodePoints (ByteSlice.ofList (rawOneOne ++ [0, 0, 0, 0, 0, 0, 240, 63])) 0
      = .error .panic ∧
    DecodePoints (ByteSlice.ofList (rawOneOne ++ [1, 2, 3])) 0 = .error .panic ∧
    DecodePoints (ByteSlice.ofList rawOneOne) 0
      = .ok [{ X := { bits := 0x4097A40000000000 }, Y := { bits := 0xC078300000000000 } }] ∧
    DecodePoints { data := [0, 0, 0, 0, 0, 0, 240, 63], spare := [0, 0, 0, 0, 0, 0, 240, 63] } 0
      = .ok [{ X := { bits := 0x4097A40000000000 }, Y := { bits := 0xC078300000000000 } }] ∧
    ∃ d0 : Decoder,
      New (headerOfLength 80 ++ (recordHeaderOfLength 26 ++ halfChunkBody)) = .ok d0 ∧
      (DecodeRecord d0).2 = .error .panic := by
  refine ⟨by decide, by decide, by decide, by decide, by decide, ?_⟩
  exact ⟨_, New_eq (headerOfLength 80) _ (by decide), by decide⟩

/-- C12 fails on the code: on a record with a 44-byte body (content length 22) that
declares `numParts = 1`, so that `44 + 4*numParts = 48` exceeds the body length,
`DecodeRecord` returns neither a record nor an error: the slice expression
`recordBody[44:48]` panics, after the counter was advanced to 76. -/
theorem C12_overlong_parts_panics :
    overlongPartsBody.length = 44 ∧ le32At overlongPartsBody 36 = 1 ∧
    ∃ d0 : Decoder,
      New (headerOfLength 76 ++ (recordHeaderOfLength 22 ++ overlongPartsBody)) = .ok d0 ∧
      (DecodeRecord d0).2 = .error .panic ∧
      (∀ e : GoError, (DecodeRecord d0).2 ≠ .error (.err e)) ∧
      (DecodeRecord d0).1.bytesRead = 76 := by
  refine ⟨by decide, by decide, _, New_eq (headerOfLength 76) _ (by decide), by decide, ?_,
    by decide⟩
  intro e he
  have hp : (DecodeRecord
      { file := recordHeaderOfLength 22 ++ overlongPartsBody,
        Header := some (headerAt (headerOfLength 76)), bytesRead := 50 }).2 = .error .panic := by
    decide
  rw [hp] at he
  cases he

/-- C19: the part-table offset `44 + 4*numParts` is a `uint32` expression and wraps
modulo `2^32`.  On a record with a 44-byte body (content length 22) that declares
`numParts = 2^30`, the offset is 44, and `DecodeRecord` succeeds: it returns a record
with `NumParts = 1073741824` and no point, although `44 + 4*NumParts` exceeds the
body length 44. -/
theorem C19_offset_wraps :
    wrapRecordBody.length = 44 ∧ le32At wrapRecordBody 36 = 2 ^ 30 ∧
    uint32 (44 + uint32 (4 * 2 ^ 30)) = 44 ∧
    ∃ (d0 : Decoder) (rec : PolygonRecord),
      New (headerOfLength 76 ++ (recordHeaderOfLength 22 ++ wrapRecordBody)) = .ok d0 ∧
      (DecodeRecord d0).2 = .ok rec ∧
      rec.Header.ContentLenght = 22 ∧ rec.NumParts = 1073741824 ∧ rec.Points = [] ∧
      44 + 4 * rec.NumParts > Int.ofNat wrapRecordBody.length := by
  refine ⟨by decide, by decide, by decide, _, recordAt (recordHeaderOfLength 22) wrapRecordBody,
    New_eq (headerOfLength 76) _ (by decide), by decide, by decide, by decide, by decide,
    by decide⟩

/-! ## Errors that `DecodeRecord` can return -/

theorem BigEndian_Uint32_not_err (b : ByteSlice) :
    ∀ e, binary.BigEndian.Uint32 b ≠ .error (.err e) := by
  intro e h
  unfold binary.BigEndian.Uint32 at h
  split at h <;> cases h

/-- `DecodeRecord` below the declared file length on a file with fewer than 8 bytes:
the error of `io.ReadFull` is returned as it is. -/
theorem DecodeRecord_short_header (d : Decoder) (hdr : Header) (hH : d.Header = some hdr)
    (hlt : d.bytesRead < hdr.FileLength) (h8 : d.file.length < 8) :
    DecodeRecord d
      = ({ d with file := [] },
          .error (.err (if d.file.length = 0 then .EOF else .ErrUnexpectedEOF))) := by
  have hnge : ¬ (d.bytesRead ≥ hdr.FileLength) := by omega
  unfold DecodeRecord
  simp only [hH, hnge, if_false, ReadFull_short _ _ h8]

/-- `DecodeRecord` below the declared file length on a file that holds the 8-byte
record header `h` and fewer body bytes than `h` announces. -/
theorem DecodeRecord_short_body (d : Decoder) (hdr : Header) (h rest : List Byte)
    (hH : d.Header = some hdr) (hlt : d.bytesRead < hdr.FileLength)
    (hd : d.file = h ++ rest) (hh : h.length = 8)
    (hr : rest.length < uint32 (be32At h 4 * 2)) :
    DecodeRecord d
      = ({ d with file := [] },
          .error (.err (if rest.length = 0 then .EOF else .ErrUnexpectedEOF))) := by
  have hnge : ¬ (d.bytesRead ≥ hdr.FileLength) := by omega
  unfold DecodeRecord
  simp only [hH, hnge, if_false, hd, ReadFull_append h rest 8 hh, DecodeRecord_header_eq h hh,
    ReadFull_short _ _ hr]

theorem slice_panic (s : ByteSlice) (lo hi : Nat) (h : s.cap < hi) :
    s.slice lo hi = .error .panic := by
  unfold ByteSlice.slice
  rw [if_neg (by omega)]

/-- The loop of `DecodePoints` on a slice without spare capacity whose length is
`16 * k + t` with `0 < t < 16`: after the `k` whole chunks, a slice expression
panics. -/
theorem DecodePoints_loop_partial (s : ByteSlice) (k t : Nat) (hsp : s.cap = s.len)
    (hl : s.len = 16 * k + t) (ht0 : 0 < t) (ht : t < 16) :
    ∀ (fuel j : Nat) (acc : List Point), j ≤ k → k - j + 1 ≤ fuel →
      DecodePoints.loop s fuel (16 * j) acc = .error .panic := by
  intro fuel
  induction fuel with
  | zero =>
    intro j acc hj hf
    omega
  | succ fuel ih =>
    intro j acc hj hf
    by_cases hlt : j < k
    · rw [DecodePoints_loop_step s fuel (16 * j) acc (by omega) (by omega)]
      rw [show 16 * j + 16 = 16 * (j + 1) by ring]
      exact ih (j + 1) _ (by omega) (by omega)
    · have hjk : j = k := by omega
      subst hjk
      have h1 : 16 * j < s.len := by omega
      rw [DecodePoints.loop]
      simp only [h1, if_true]
      by_cases h8 : t < 8
      · rw [slice_panic s (16 * j) (16 * j + 8) (by omega)]
        rfl
      · rw [read_le64 s (16 * j) (16 * j + 8) (by omega) (by omega)]
        rw [slice_panic s (16 * j + 8) (16 * j + 16) (by omega)]
        rfl

/-- A successful `DecodePoints` on a slice without spare capacity: the length is a
multiple of 16 and the points are those of the chunks. -/
theorem DecodePoints_ok_inv (s : ByteSlice) (n : Int) (pts : List Point)
    (hsp : s.cap = s.len) (h : DecodePoints s n = .ok pts) :
    s.len % 16 = 0 ∧ pts = (List.range (s.len / 16)).map (fun t => pointAt s.data (16 * t)) := by
  by_cases h0 : s.len % 16 = 0
  · have hk : s.len = 16 * (s.len / 16) := by omega
    rw [DecodePoints_chunks s (s.len / 16) n hk] at h
    exact ⟨h0, (Except.ok.inj h).symm⟩
  · exfalso
    have hk : s.len = 16 * (s.len / 16) + s.len % 16 := by omega
    have hp := DecodePoints_loop_partial s (s.len / 16) (s.len % 16) hsp hk (by omega) (by omega)
      s.len 0 [] (by omega) (by omega)
    simp only [Nat.mul_zero] at hp
    rw [DecodePoints, hp] at h
    cases h

/-- A body that `DecodeRecord` decodes: the `uint32` offset `44 + 4*numParts` lies
between 44 and the body length, the bytes after it are whole 16-byte chunks, and the
record has one point for each of them. -/
theorem DecodeRecord_body_ok_inv {recordNumber recordLenght : Nat} {r : List Byte}
    {rec : PolygonRecord}
    (h : DecodeRecord.body recordNumber recordLenght (ByteSlice.ofList r) = .ok rec) :
    44 ≤ uint32 (44 + uint32 (4 * le32At r 36)) ∧
    uint32 (44 + uint32 (4 * le32At r 36)) ≤ r.length ∧
    (r.length - uint32 (44 + uint32 (4 * le32At r 36))) % 16 = 0 ∧
    rec.Points.length = (r.length - uint32 (44 + uint32 (4 * le32At r 36))) / 16 ∧
    rec.Header.ContentLenght = Int.ofNat recordLenght ∧
    rec.NumParts = Int.ofNat (le32At r 36) ∧
    rec.NumPoints = Int.ofNat (le32At r 40) := by
  have h44 := DecodeRecord_body_ok_length h
  rw [DecodeRecord_body_fixed _ _ r h44] at h
  obtain ⟨parts, hparts, h⟩ := bind_ok_inv h
  obtain ⟨_, _, h⟩ := bind_ok_inv h
  obtain ⟨points, hpoints, h⟩ := bind_ok_inv h
  obtain ⟨pts, hpts, h⟩ := bind_ok_inv h
  cases h
  obtain ⟨hlo, hhi, _⟩ := slice_ok_inv hparts
  obtain ⟨_, _, hpe⟩ := slice_ok_inv hpoints
  have hcap : (ByteSlice.ofList r).cap = r.length := by simp [ByteSlice.cap, ByteSlice.ofList]
  have hlen : (ByteSlice.ofList r).len = r.length := rfl
  rw [hcap] at hhi
  have hplen : points.len = r.length - uint32 (44 + uint32 (4 * le32At r 36)) := by
    rw [hpe, hlen]
    simp only [ByteSlice.len, ByteSlice.ofList, List.append_nil]
    rw [window_length r _ _ (le_refl _)]
  have hpcap : points.cap = points.len := by
    rw [hpe, hlen]
    simp [ByteSlice.cap, ByteSlice.len, ByteSlice.ofList]
  obtain ⟨hmod, hval⟩ := DecodePoints_ok_inv points _ pts hpcap hpts
  rw [hplen] at hmod hval
  refine ⟨hlo, hhi, hmod, ?_, rfl, rfl, rfl⟩
  show pts.length = _
  rw [hval]
  simp

/-- C13, as the code has it: every record that `DecodeRecord` returns has one point for
each 16-byte chunk between the `uint32` offset `44 + 4*NumParts` and the end of the
body of `2*ContentLenght mod 2^32` bytes, so `2*ContentLenght = 44 + 4*NumParts +
16*len(Points)` modulo `2^32`, and exactly when `ContentLenght < 2^31` and
`44 + 4*NumParts < 2^32`.  `NumPoints` is stored as read and is not compared with
`len(Points)`. -/
theorem C13_returned_record_lengths (d : Decoder) (rec : PolygonRecord)
    (hok : (DecodeRecord d).2 = .ok rec) :
    ∃ c np : Nat,
      rec.Header.ContentLenght = Int.ofNat c ∧ rec.NumParts = Int.ofNat np ∧
      (2 * c) % 2 ^ 32 = (44 + 4 * np) % 2 ^ 32 + 16 * rec.Points.length ∧
      (c < 2 ^ 31 → 44 + 4 * np < 2 ^ 32 → 2 * c = 44 + 4 * np + 16 * rec.Points.length) := by
  obtain ⟨hdr, h, r, rest, hH, hlt, hd, hh, hr, hbody⟩ := DecodeRecord_ok_inv d rec hok
  obtain ⟨hlo, hhi, hmod, hpts, hc, hnp, _⟩ := DecodeRecord_body_ok_inv hbody
  have key : (2 * be32At h 4) % 2 ^ 32
      = (44 + 4 * le32At r 36) % 2 ^ 32 + 16 * rec.Points.length := by
    simp only [uint32] at hlo hhi hmod hr hpts
    rw [hpts]
    omega
  refine ⟨be32At h 4, le32At r 36, hc, hnp, key, ?_⟩
  intro h1 h2
  rw [Nat.mod_eq_of_lt (by omega), Nat.mod_eq_of_lt h2] at key
  exact key

/-- C13 at the first record of the sample file: content length 66, two parts, five
points, `2*66 = 44 + 4*2 + 16*5`. -/
theorem C13_returned_record_lengths_witness :
    (DecodeRecord sampleDecoder).2 = .ok sampleRecord1Decoded ∧
    ∃ c np : Nat,
      sampleRecord1Decoded.Header.ContentLenght = Int.ofNat c ∧
      sampleRecord1Decoded.NumParts = Int.ofNat np ∧
      (2 * c) % 2 ^ 32 = (44 + 4 * np) % 2 ^ 32 + 16 * sampleRecord1Decoded.Points.length ∧
      (c < 2 ^ 31 → 44 + 4 * np < 2 ^ 32 →
        2 * c = 44 + 4 * np + 16 * sampleRecord1Decoded.Points.length) :=
  ⟨DecodeRecord_sampleDecoder,
   C13_returned_record_lengths sampleDecoder sampleRecord1Decoded DecodeRecord_sampleDecoder⟩

set_option maxRecDepth 100000 in
set_option exponentiation.threshold 4000 in
/-- C13 as stated fails on a record of content length 30 whose 60-byte body declares no
part and no point: `60` differs from `44 + 4*0 + 16*0`, yet `DecodeRecord` returns a
record, with `NumPoints = 0` and one point.  It also returns a record for a 44-byte
body that declares five points, with no point. -/
theorem C13_counterexample :
    (extraChunkBody.length = 60 ∧ le32At extraChunkBody 36 = 0 ∧ le32At extraChunkBody 40 = 0 ∧
      ∃ (d0 : Decoder) (rec : PolygonRecord),
        New (headerOfLength 84 ++ (recordHeaderOfLength 30 ++ extraChunkBody)) = .ok d0 ∧
        (DecodeRecord d0).2 = .ok rec ∧
        rec.Header.ContentLenght = 30 ∧ rec.NumParts = 0 ∧ rec.NumPoints = 0 ∧
        rec.Points.length = 1) ∧
    (∃ (d0 : Decoder) (rec : PolygonRecord),
        New (headerOfLength 76
          ++ (recordHeaderOfLength 22 ++ fixedBody [0, 0, 0, 0] [5, 0, 0, 0])) = .ok d0 ∧
        (DecodeRecord d0).2 = .ok rec ∧
        rec.Header.ContentLenght = 22 ∧ rec.NumParts = 0 ∧ rec.NumPoints = 5 ∧
        rec.Points.length = 0) := by
  refine ⟨⟨by decide, by decide, by decide, _,
      { Header := { RecordNumber := 1, ContentLenght := 30 }
        ShapeType := 5
        Box := { XMin := { bits := 0 }, YMin := { bits := 0 }, XMax := { bits := 0 },
                 YMax := { bits := 0 } }
        NumParts := 0
        NumPoints := 0
        Parts := []
        Points := [{ X := { bits := 0x4097A40000000000 }, Y := { bits := 0xC078300000000000 } }] },
      New_eq (headerOfLength 84) _ (by decide), by decide, rfl, rfl, rfl, rfl⟩,
    ⟨_,
      { Header := { RecordNumber := 1, ContentLenght := 22 }
        ShapeType := 5
        Box := { XMin := { bits := 0 }, YMin := { bits := 0 }, XMax := { bits := 0 },
                 YMax := { bits := 0 } }
        NumParts := 0
        NumPoints := 5
        Parts := []
        Points := [] },
      New_eq (headerOfLength 76) _ (by decide), by decide, rfl, rfl, rfl, rfl⟩⟩

/-! ## The consumed counter along a sequence of calls -/

theorem DecodeRecord_at_end (d : Decoder) (hdr : Header) (hH : d.Header = some hdr)
    (hge : d.bytesRead ≥ hdr.FileLength) : DecodeRecord d = (d, .error (.err .EOF)) := by
  simp only [DecodeRecord, hH, hge, if_true]

/-- A decoder that `New` returns: the first 100 bytes of the stream are consumed, the
header read from them is stored and the counter is 50. -/
theorem New_ok_inv (stream : List Byte) (d0 : Decoder) (hnew : New stream = .ok d0) :
    ∃ b rest : List Byte, stream = b ++ rest ∧ b.length = 100 ∧
      d0 = { file := rest, Header := some (headerAt b), bytesRead := 50 } := by
  by_cases h100 : stream.length < 100
  · exfalso
    have hr := ReadFull_short stream 100 h100
    simp only [New, GetHeader, hr] at hnew
    cases hnew
  · have hb : (stream.take 100).length = 100 := by
      rw [List.length_take]
      omega
    have hs : stream = stream.take 100 ++ stream.drop 100 := (List.take_append_drop 100 stream).symm
    refine ⟨stream.take 100, stream.drop 100, hs, hb, ?_⟩
    rw [hs, New_eq _ _ hb] at hnew
    exact (Except.ok.inj hnew).symm

/-- One call of `DecodeRecord` on a decoder whose declared file length is a `uint32`
and whose counter is not negative: the header stays, the counter and the file
position do not go back, and a call that returns a record of content length `c` was
made below the declared length, read `8 + (2*c mod 2^32)` bytes, with `c >= 22`, and
added `c + 4` to the counter. -/
theorem DecodeRecord_step (d : Decoder) (hdr : Header) (hH : d.Header = some hdr)
    (hfl : hdr.FileLength < 4294967296) (h0 : 0 ≤ d.bytesRead) :
    (DecodeRecord d).1.Header = some hdr ∧
    d.bytesRead ≤ (DecodeRecord d).1.bytesRead ∧
    (DecodeRecord d).1.file.length ≤ d.file.length ∧
    ∀ rec : PolygonRecord, (DecodeRecord d).2 = .ok rec →
      ∃ c : Nat, rec.Header.ContentLenght = Int.ofNat c ∧ 22 ≤ c ∧ c < 4294967296 ∧
        d.bytesRead < hdr.FileLength ∧
        (DecodeRecord d).1.bytesRead = d.bytesRead + Int.ofNat c + 4 ∧
        d.file.length = (DecodeRecord d).1.file.length + 8 + (2 * c) % 4294967296 := by
  by_cases hge : d.bytesRead ≥ hdr.FileLength
  · rw [DecodeRecord_at_end d hdr hH hge]
    refine ⟨hH, le_refl _, le_refl _, ?_⟩
    intro rec h
    cases h
  · have hlt : d.bytesRead < hdr.FileLength := by omega
    by_cases h8 : d.file.length < 8
    · rw [DecodeRecord_short_header d hdr hH hlt h8]
      refine ⟨hH, le_refl _, by simp, ?_⟩
      intro rec h
      cases h
    · have hh : (d.file.take 8).length = 8 := by
        rw [List.length_take]
        omega
      have hd : d.file = d.file.take 8 ++ d.file.drop 8 := (List.take_append_drop 8 d.file).symm
      by_cases hr : (d.file.drop 8).length < uint32 (be32At (d.file.take 8) 4 * 2)
      · rw [DecodeRecord_short_body d hdr _ _ hH hlt hd hh hr]
        refine ⟨hH, le_refl _, by simp, ?_⟩
        intro rec h
        cases h
      · have hr1 : ((d.file.drop 8).take (uint32 (be32At (d.file.take 8) 4 * 2))).length
            = uint32 (be32At (d.file.take 8) 4 * 2) := by
          rw [List.length_take]
          omega
        have hd1 : d.file = d.file.take 8
            ++ ((d.file.drop 8).take (uint32 (be32At (d.file.take 8) 4 * 2))
              ++ (d.file.drop 8).drop (uint32 (be32At (d.file.take 8) 4 * 2))) := by
          rw [List.take_append_drop, List.take_append_drop]
        have hc := be32At_lt (d.file.take 8) 4
        have hcnt : int64 (d.bytesRead + int64 (Int.ofNat (be32At (d.file.take 8) 4) + 4))
            = d.bytesRead + Int.ofNat (be32At (d.file.take 8) 4) + 4 := by
          simp only [Int.ofNat_eq_coe]
          rw [int64_of_bounds ((be32At (d.file.take 8) 4 : Int) + 4) (by omega) (by omega)]
          rw [int64_of_bounds _ (by omega) (by omega)]
          ring
        rw [DecodeRecord_eq d hdr _ _ _ hH hlt hd1 hh hr1, hcnt]
        dsimp only
        have hfile : d.file.length
            = ((d.file.drop 8).drop (uint32 (be32At (d.file.take 8) 4 * 2))).length + 8
              + uint32 (be32At (d.file.take 8) 4 * 2) := by
          simp only [List.length_drop]
          simp only [List.length_drop] at hr
          omega
        refine ⟨hH, ?_, by omega, ?_⟩
        · show d.bytesRead ≤ d.bytesRead + Int.ofNat (be32At (d.file.take 8) 4) + 4
          simp only [Int.ofNat_eq_coe]
          omega
        · intro rec hbody
          have h44 := DecodeRecord_body_ok_length hbody
          obtain ⟨_, _, _, _, hcl, _, _⟩ := DecodeRecord_body_ok_inv hbody
          refine ⟨be32At (d.file.take 8) 4, hcl, ?_, by omega, hlt, rfl, ?_⟩
          · rw [hr1] at h44
            unfold uint32 at h44
            omega
          · show d.file.length = _ + 8 + (2 * be32At (d.file.take 8) 4) % 4294967296
            rw [hfile]
            unfold uint32
            rw [Nat.mul_comm]

/-- Any number of calls keeps the header and does not move the counter or the file
position back. -/
theorem calls_inv (hdr : Header) (hfl : hdr.FileLength < 4294967296) :
    ∀ (n : Nat) (d : Decoder), d.Header = some hdr → 0 ≤ d.bytesRead →
      (DecodeRecord.calls n d).1.Header = some hdr ∧
      d.bytesRead ≤ (DecodeRecord.calls n d).1.bytesRead ∧
      (DecodeRecord.calls n d).1.file.length ≤ d.file.length := by
  intro n
  induction n with
  | zero =>
    intro d hH h0
    exact ⟨hH, le_refl _, le_refl _⟩
  | succ n ih =>
    intro d hH h0
    obtain ⟨s1, s2, s3, _⟩ := DecodeRecord_step d hdr hH hfl h0
    obtain ⟨i1, i2, i3⟩ := ih (DecodeRecord d).1 s1 (by omega)
    rw [calls_succ]
    exact ⟨i1, by dsimp only; omega, by dsimp only; omega⟩

/-- With every returned record of content length below `2^31`, the file position
advances by twice what the counter advances by. -/
theorem calls_lockstep (hdr : Header) (hfl : hdr.FileLength < 4294967296) :
    ∀ (n : Nat) (d : Decoder), d.Header = some hdr → 0 ≤ d.bytesRead →
      AllSmallRecords (DecodeRecord.calls n d).2 →
      Int.ofNat d.file.length - Int.ofNat (DecodeRecord.calls n d).1.file.length
        = 2 * ((DecodeRecord.calls n d).1.bytesRead - d.bytesRead) := by
  intro n
  induction n with
  | zero =>
    intro d hH h0 _
    simp [DecodeRecord.calls]
  | succ n ih =>
    intro d hH h0 hall
    rw [calls_succ] at hall ⊢
    dsimp only at hall ⊢
    obtain ⟨s1, s2, s3, s4⟩ := DecodeRecord_step d hdr hH hfl h0
    obtain ⟨rec, hrec, hsmall⟩ := hall _ (List.mem_cons_self _ _)
    obtain ⟨c, hc, _, _, _, hcnt, hfile⟩ := s4 rec hrec
    have hrest := ih (DecodeRecord d).1 s1 (by omega)
      (fun o ho => hall o (List.mem_cons_of_mem _ ho))
    rw [hc] at hsmall
    simp only [Int.ofNat_eq_coe] at hsmall hcnt hrest ⊢
    have hc31 : c < 2147483648 := by
      norm_num at hsmall
      omega
    omega

theorem headerAt_FileLength_lt (b : List Byte) : (headerAt b).FileLength < 4294967296 := by
  have := be32At_lt b 24
  simp only [headerAt, Int.ofNat_eq_coe]
  omega

/-- C16: after `New` succeeds the stream has consumed exactly 100 bytes and the counter
is 50; from any state reached by calls on that decoder, a call that returns a record
of content length `c < 2^31` consumes exactly `8 + 2*c` further bytes and adds exactly
`c + 4` to the counter; so after any sequence of calls that all return such records,
the bytes consumed are twice the counter. -/
theorem C16_counter_lockstep (stream : List Byte) (d0 : Decoder)
    (hnew : New stream = .ok d0) :
    stream.length = 100 + d0.file.length ∧ d0.bytesRead = 50 ∧
    (∀ (n : Nat) (rec : PolygonRecord),
      (DecodeRecord (DecodeRecord.calls n d0).1).2 = .ok rec →
      rec.Header.ContentLenght < 2 ^ 31 →
      Int.ofNat (DecodeRecord.calls n d0).1.file.length
        = Int.ofNat (DecodeRecord (DecodeRecord.calls n d0).1).1.file.length
          + (8 + 2 * rec.Header.ContentLenght) ∧
      (DecodeRecord (DecodeRecord.calls n d0).1).1.bytesRead
        = (DecodeRecord.calls n d0).1.bytesRead + (rec.Header.ContentLenght + 4)) ∧
    (∀ n : Nat, AllSmallRecords (DecodeRecord.calls n d0).2 →
      Int.ofNat stream.length - Int.ofNat (DecodeRecord.calls n d0).1.file.length
        = 2 * (DecodeRecord.calls n d0).1.bytesRead) := by
  obtain ⟨b, rest, hs, hb, hd0⟩ := New_ok_inv stream d0 hnew
  have hfl := headerAt_FileLength_lt b
  have hH : d0.Header = some (headerAt b) := by rw [hd0]
  have hcnt : d0.bytesRead = 50 := by rw [hd0]
  have hlen : stream.length = 100 + d0.file.length := by
    rw [hs, hd0, List.length_append, hb]
  refine ⟨hlen, hcnt, ?_, ?_⟩
  · intro n rec hok hsmall
    obtain ⟨i1, i2, _⟩ := calls_inv (headerAt b) hfl n d0 hH (by omega)
    obtain ⟨_, _, _, s4⟩ := DecodeRecord_step _ (headerAt b) i1 hfl (by omega)
    obtain ⟨c, hc, _, _, _, hadd, hfile⟩ := s4 rec hok
    rw [hc] at hsmall ⊢
    simp only [Int.ofNat_eq_coe] at hsmall hadd ⊢
    have hc31 : c < 2147483648 := by
      norm_num at hsmall
      omega
    constructor
    · omega
    · omega
  · intro n hall
    have := calls_lockstep (headerAt b) hfl n d0 hH (by omega) hall
    simp only [Int.ofNat_eq_coe] at this ⊢
    omega

set_option maxRecDepth 100000 in
set_option exponentiation.threshold 4000 in
/-- C16 at the sample file: 100 bytes consumed and the counter at 50 after `New`; 240
bytes and 120 after the first record (content length 66); 312 bytes and 156 after
the second (content length 32). -/
theorem C16_counter_lockstep_witness :
    New sampleFile = .ok sampleDecoder ∧
    sampleFile.length = 100 + sampleDecoder.file.length ∧ sampleDecoder.bytesRead = 50 ∧
    sampleFile.length = 312 ∧
    (DecodeRecord.calls 1 sampleDecoder).1.file.length = 72 ∧
    (DecodeRecord.calls 1 sampleDecoder).1.bytesRead = 120 ∧
    (DecodeRecord.calls 2 sampleDecoder).1.file.length = 0 ∧
    (DecodeRecord.calls 2 sampleDecoder).1.bytesRead = 156 ∧
    Int.ofNat sampleFile.length - Int.ofNat (DecodeRecord.calls 2 sampleDecoder).1.file.length
      = 2 * (DecodeRecord.calls 2 sampleDecoder).1.bytesRead := by
  have h := C16_counter_lockstep sampleFile sampleDecoder New_sampleFile
  have hcalls : (DecodeRecord.calls 2 sampleDecoder).2
      = [.ok sampleRecord1Decoded, .ok sampleRecord2Decoded] := by decide
  refine ⟨New_sampleFile, h.1, h.2.1, by decide, by decide, by decide, by decide, by decide,
    h.2.2.2 2 ?_⟩
  intro o ho
  rw [hcalls] at ho
  simp only [List.mem_cons, List.mem_singleton, List.not_mem_nil, or_false] at ho
  rcases ho with rfl | rfl
  · exact ⟨_, rfl, by decide⟩
  · exact ⟨_, rfl, by decide⟩

/-- Along calls that all return a record, the counter grows by `contentLength + 4`
for each record, and it was below the declared file length before the last of them. -/
theorem calls_counter (hdr : Header) (hfl : hdr.FileLength < 4294967296) :
    ∀ (recs : List PolygonRecord) (d : Decoder), d.Header = some hdr → 0 ≤ d.bytesRead →
      (DecodeRecord.calls recs.length d).2 = recs.map Except.ok →
      (DecodeRecord.calls recs.length d).1.bytesRead
        = d.bytesRead + (recs.map (fun r => r.Header.ContentLenght + 4)).sum ∧
      (recs ≠ [] →
        d.bytesRead + (recs.dropLast.map (fun r => r.Header.ContentLenght + 4)).sum
          < hdr.FileLength) := by
  intro recs
  induction recs with
  | nil =>
    intro d _ _ _
    exact ⟨by simp [DecodeRecord.calls], fun h => absurd rfl h⟩
  | cons r rs ih =>
    intro d hH h0 hcalls
    rw [List.length_cons, calls_succ] at hcalls ⊢
    dsimp only at hcalls ⊢
    rw [List.map_cons] at hcalls
    obtain ⟨hhead, htail⟩ := List.cons.inj hcalls
    obtain ⟨s1, s2, _, s4⟩ := DecodeRecord_step d hdr hH hfl h0
    obtain ⟨c, hc, _, _, hlt, hadd, _⟩ := s4 r hhead
    obtain ⟨i1, i2⟩ := ih (DecodeRecord d).1 s1 (by omega) htail
    have hc0 : (0 : Int) ≤ Int.ofNat c := Int.ofNat_zero_le c
    constructor
    · rw [i1, hadd, List.map_cons, List.sum_cons, hc]
      ring
    · intro _
      by_cases hrs : rs = []
      · subst hrs
        simpa using hlt
      · rw [List.dropLast_cons_of_ne_nil hrs, List.map_cons, List.sum_cons, hc]
        have := i2 hrs
        rw [hadd] at this
        omega

theorem sum_bytes_eq_twice_words (recs : List PolygonRecord) :
    (recs.map (fun r => 8 + 2 * r.Header.ContentLenght)).sum
      = 2 * (recs.map (fun r => r.Header.ContentLenght + 4)).sum := by
  induction recs with
  | nil => rfl
  | cons r rs ih =>
    rw [List.map_cons, List.sum_cons, List.map_cons, List.sum_cons, ih]
    ring

/-- C17, as the code has it: for every stream and every non-empty sequence of calls of
`DecodeRecord` on the decoder built by `New` that all return a record, the bytes
consumed before the last of them (100 header bytes plus `8 + 2*contentLength` for each
earlier record) are below `2 * Header.FileLength`; the total (the same sum over all
the records read) is twice the counter, and exceeds `2 * Header.FileLength` by less
than the `8 + 2*contentLength` of the last record. -/
theorem C17_consumed_before_last_record (stream : List Byte) (d0 : Decoder) (hdr : Header)
    (hnew : New stream = .ok d0) (hH : d0.Header = some hdr)
    (recs : List PolygonRecord) (hne : recs ≠ [])
    (hcalls : (DecodeRecord.calls recs.length d0).2 = recs.map Except.ok) :
    100 + (recs.dropLast.map (fun r => 8 + 2 * r.Header.ContentLenght)).sum
      < 2 * hdr.FileLength ∧
    100 + (recs.map (fun r => 8 + 2 * r.Header.ContentLenght)).sum
      = 2 * (DecodeRecord.calls recs.length d0).1.bytesRead ∧
    100 + (recs.map (fun r => 8 + 2 * r.Header.ContentLenght)).sum
      < 2 * hdr.FileLength + (8 + 2 * (recs.getLast hne).Header.ContentLenght) := by
  obtain ⟨b, rest, hs, hb, hd0⟩ := New_ok_inv stream d0 hnew
  have hhdr : hdr = headerAt b := by
    rw [hd0] at hH
    exact (Option.some.inj hH).symm
  have hfl : hdr.FileLength < 4294967296 := by
    rw [hhdr]
    exact headerAt_FileLength_lt b
  have hcnt : d0.bytesRead = 50 := by rw [hd0]
  obtain ⟨c1, c2⟩ := calls_counter hdr hfl recs d0 hH (by omega) hcalls
  have c3 := c2 hne
  have hsplit : (recs.map (fun r => 8 + 2 * r.Header.ContentLenght)).sum
      = (recs.dropLast.map (fun r => 8 + 2 * r.Header.ContentLenght)).sum
        + (8 + 2 * (recs.getLast hne).Header.ContentLenght) := by
    conv_lhs => rw [← List.dropLast_append_getLast hne]
    simp
  rw [sum_bytes_eq_twice_words] at hsplit ⊢
  rw [sum_bytes_eq_twice_words] at hsplit ⊢
  refine ⟨by omega, by omega, by omega⟩

set_option maxRecDepth 100000 in
set_option exponentiation.threshold 4000 in
/-- C17 at the sample file and its two records: 240 bytes were consumed before the
last record, below `2 * 156`, and 312 after it. -/
theorem C17_consumed_before_last_record_witness :
    (DecodeRecord.calls 2 sampleDecoder).2
      = [sampleRecord1Decoded, sampleRecord2Decoded].map Except.ok ∧
    100 + (([sampleRecord1Decoded, sampleRecord2Decoded].dropLast.map
        (fun r => 8 + 2 * r.Header.ContentLenght)).sum) = 240 ∧
    100 + ([sampleRecord1Decoded, sampleRecord2Decoded].dropLast.map
        (fun r => 8 + 2 * r.Header.ContentLenght)).sum
      < 2 * (headerAt sampleHeader).FileLength ∧
    100 + ([sampleRecord1Decoded, sampleRecord2Decoded].map
        (fun r => 8 + 2 * r.Header.ContentLenght)).sum
      = 2 * (DecodeRecord.calls 2 sampleDecoder).1.bytesRead := by
  have hcalls : (DecodeRecord.calls 2 sampleDecoder).2
      = [sampleRecord1Decoded, sampleRecord2Decoded].map Except.ok := by decide
  have h := C17_consumed_before_last_record sampleFile sampleDecoder (headerAt sampleHeader)
    New_sampleFile rfl [sampleRecord1Decoded, sampleRecord2Decoded] (by decide) hcalls
  exact ⟨hcalls, by decide, h.1, h.2.1⟩

/-- C17 as stated fails on a header that declares 51 words followed by one well-formed
record of content length 22: the call made at counter 50 returns the record, and the
bytes consumed, `100 + (8 + 2*22) = 152`, exceed `2 * 51`.  On a header that declares
fewer than 50 words the 100 header bytes alone exceed the bound. -/
theorem C17_counterexample :
    (∃ (d0 : Decoder) (rec : PolygonRecord),
      New (headerOfLength 51 ++ (recordHeaderOfLength 22 ++ emptyShapeBody)) = .ok d0 ∧
      d0.Header = some (headerAt (headerOfLength 51)) ∧
      (headerAt (headerOfLength 51)).FileLength = 51 ∧
      (DecodeRecord.calls 1 d0).2 = [.ok rec] ∧ rec.Header.ContentLenght = 22 ∧
      (headerOfLength 51 ++ (recordHeaderOfLength 22 ++ emptyShapeBody)).length
        - (DecodeRecord.calls 1 d0).1.file.length = 152 ∧
      100 + (8 + 2 * rec.Header.ContentLenght) > 2 * (headerAt (headerOfLength 51)).FileLength) ∧
    (∃ d0 : Decoder,
      New (headerOfLength 7) = .ok d0 ∧ d0.Header = some (headerAt (headerOfLength 7)) ∧
      (100 : Int) > 2 * (headerAt (headerOfLength 7)).FileLength) := by
  refine ⟨⟨_, recordAt (recordHeaderOfLength 22) emptyShapeBody,
      New_eq (headerOfLength 51) _ (by decide), rfl, by decide, by decide, by decide, by decide,
      by decide⟩,
    ⟨{ file := [], Header := some (headerAt (headerOfLength 7)), bytesRead := 50 },
      by decide, rfl, by decide⟩⟩

theorem okCount_cons_ok (rec : PolygonRecord) (outs : List (Outcome PolygonRecord)) :
    okCount (.ok rec :: outs) = okCount outs + 1 := by
  simp [okCount]

theorem okCount_cons_error (f : Fault) (outs : List (Outcome PolygonRecord)) :
    okCount (.error f :: outs) = okCount outs := by
  simp [okCount]

/-- Along any calls from a counter `b`, the `k`-th call that returns a record is made
at a counter of at least `b + 26 * (k - 1)`, which is below the declared file
length. -/
theorem calls_okCount (hdr : Header) (hfl : hdr.FileLength < 4294967296) :
    ∀ (n : Nat) (d : Decoder), d.Header = some hdr → 0 ≤ d.bytesRead →
      okCount (DecodeRecord.calls n d).2 = 0 ∨
      d.bytesRead + 26 * Int.ofNat (okCount (DecodeRecord.calls n d).2) < hdr.FileLength + 26 := by
  intro n
  induction n with
  | zero =>
    intro d _ _
    exact Or.inl rfl
  | succ n ih =>
    intro d hH h0
    obtain ⟨s1, s2, _, s4⟩ := DecodeRecord_step d hdr hH hfl h0
    have hrest := ih (DecodeRecord d).1 s1 (by omega)
    rw [calls_succ]
    dsimp only
    cases hres : (DecodeRecord d).2 with
    | error f =>
      rw [okCount_cons_error]
      rcases hrest with h | h
      · exact Or.inl h
      · exact Or.inr (by omega)
    | ok rec =>
      obtain ⟨c, _, hc22, _, hlt, hadd, _⟩ := s4 rec hres
      rw [okCount_cons_ok]
      right
      simp only [Int.ofNat_eq_coe] at hadd hrest ⊢
      rcases hrest with h | h
      · rw [h]
        omega
      · push_cast
        omega

/-- C18: on a decoder built by `New`, whatever the stream holds, every call of
`DecodeRecord` that returns a record has content length at least 22 and increases the
counter by at least 26; so among any number of calls at most
`ceil((FileLength - 50) / 26)` return a record, and none does when
`FileLength <= 50`. -/
theorem C18_bounded_iteration (stream : List Byte) (d0 : Decoder) (hdr : Header)
    (hnew : New stream = .ok d0) (hH : d0.Header = some hdr) :
    (∀ (n : Nat) (rec : PolygonRecord),
      (DecodeRecord (DecodeRecord.calls n d0).1).2 = .ok rec →
      22 ≤ rec.Header.ContentLenght ∧
      (DecodeRecord.calls n d0).1.bytesRead + 26
        ≤ (DecodeRecord (DecodeRecord.calls n d0).1).1.bytesRead) ∧
    (∀ n : Nat,
      okCount (DecodeRecord.calls n d0).2 ≤ ((hdr.FileLength - 50).toNat + 25) / 26) ∧
    (hdr.FileLength ≤ 50 → ∀ n : Nat, okCount (DecodeRecord.calls n d0).2 = 0) := by
  obtain ⟨b, rest, hs, hb, hd0⟩ := New_ok_inv stream d0 hnew
  have hhdr : hdr = headerAt b := by
    rw [hd0] at hH
    exact (Option.some.inj hH).symm
  have hfl : hdr.FileLength < 4294967296 := by
    rw [hhdr]
    exact headerAt_FileLength_lt b
  have hcnt : d0.bytesRead = 50 := by rw [hd0]
  have hbound : ∀ n : Nat, okCount (DecodeRecord.calls n d0).2 = 0 ∨
      26 * Int.ofNat (okCount (DecodeRecord.calls n d0).2) < hdr.FileLength - 50 + 26 := by
    intro n
    rcases calls_okCount hdr hfl n d0 hH (by omega) with h | h
    · exact Or.inl h
    · exact Or.inr (by omega)
  refine ⟨?_, ?_, ?_⟩
  · intro n rec hok
    obtain ⟨i1, i2, _⟩ := calls_inv hdr hfl n d0 hH (by omega)
    obtain ⟨_, _, _, s4⟩ := DecodeRecord_step _ hdr i1 hfl (by omega)
    obtain ⟨c, hc, hc22, _, _, hadd, _⟩ := s4 rec hok
    rw [hc, hadd]
    simp only [Int.ofNat_eq_coe]
    constructor <;> omega
  · intro n
    rcases hbound n with h | h
    · rw [h]
      exact Nat.zero_le _
    · simp only [Int.ofNat_eq_coe] at h
      omega
  · intro h50 n
    rcases hbound n with h | h
    · exact h
    · simp only [Int.ofNat_eq_coe] at h
      omega

set_option maxRecDepth 100000 in
set_option exponentiation.threshold 4000 in
/-- C18 at the sample file, declared length 156: the bound is 5, and of 5 calls the
first two return a record; on the header that declares 50 words no call does. -/
theorem C18_bounded_iteration_witness :
    ((headerAt sampleHeader).FileLength - 50).toNat = 106 ∧
    okCount (DecodeRecord.calls 5 sampleDecoder).2 = 2 ∧
    okCount (DecodeRecord.calls 5 sampleDecoder).2
      ≤ (((headerAt sampleHeader).FileLength - 50).toNat + 25) / 26 ∧
    okCount (DecodeRecord.calls 3
      { file := recordHeaderOfLength 22 ++ emptyShapeBody,
        Header := some (headerAt (headerOfLength 50)), bytesRead := 50 }).2 = 0 :=
  ⟨by decide, by decide,
   (C18_bounded_iteration sampleFile sampleDecoder (headerAt sampleHeader)
      New_sampleFile rfl).2.1 5,
   (C18_bounded_iteration (headerOfLength 50 ++ (recordHeaderOfLength 22 ++ emptyShapeBody))
      { file := recordHeaderOfLength 22 ++ emptyShapeBody,
        Header := some (headerAt (headerOfLength 50)), bytesRead := 50 }
      (headerAt (headerOfLength 50)) (New_eq (headerOfLength 50) _ (by decide)) rfl).2.2
      (by decide) 3⟩

/-- On every slice without spare capacity whose length is not a multiple of 16,
`DecodePoints` panics. -/
theorem DecodePoints_partial_panics (b : List Byte) (n : Int) (h : b.length % 16 ≠ 0) :
    DecodePoints (ByteSlice.ofList b) n = .error .panic := by
  have hlen : (ByteSlice.ofList b).len = b.length := rfl
  have hcap : (ByteSlice.ofList b).cap = (ByteSlice.ofList b).len := by
    simp [ByteSlice.cap, ByteSlice.len, ByteSlice.ofList]
  have hk : (ByteSlice.ofList b).len = 16 * (b.length / 16) + b.length % 16 := by
    rw [hlen]
    omega
  have hp := DecodePoints_loop_partial (ByteSlice.ofList b) (b.length / 16) (b.length % 16)
    hcap hk (by omega) (by omega) b.length 0 [] (by omega) (by omega)
  simp only [Nat.mul_zero] at hp
  rw [DecodePoints, hlen, hp]

/-- On every body of at least 44 bytes whose `uint32` offset `44 + 4*numParts` is past
the end of the body, the statements of `DecodeRecord` after the reads panic. -/
theorem DecodeRecord_body_parts_overrun (recordNumber recordLenght : Nat) (r : List Byte)
    (h44 : 44 ≤ r.length) (hover : r.length < uint32 (44 + uint32 (4 * le32At r 36))) :
    DecodeRecord.body recordNumber recordLenght (ByteSlice.ofList r) = .error .panic := by
  rw [DecodeRecord_body_fixed _ _ r h44]
  rw [slice_panic _ 44 _ (by simpa [ByteSlice.cap, ByteSlice.ofList] using hover)]
  rfl

/-! ## NaN coordinates -/

set_option maxRecDepth 100000 in
set_option exponentiation.threshold 4000 in
/-- The point decoded from two NaN raw coordinates, alone and inside a well-formed
record: X keeps the quiet NaN 0x7FF8000000000123, Y is the signalling NaN
0xFFF0000000000001 with its quiet bit set. -/
theorem DecodePoints_nan_coordinates :
    DecodePoints (ByteSlice.ofList rawNaNs) 0
      = .ok [{ X := { bits := 0x7FF8000000000123 }, Y := { bits := 0xFFF8000000000001 } }] ∧
    nanPointBody.length = 44 + 4 * le32At nanPointBody 36 + 16 * le32At nanPointBody 40 ∧
    ∃ (d0 : Decoder) (rec : PolygonRecord),
      New (headerOfLength 84 ++ (recordHeaderOfLength 30 ++ nanPointBody)) = .ok d0 ∧
      (DecodeRecord d0).2 = .ok rec ∧
      rec.Points
        = [{ X := { bits := 0x7FF8000000000123 }, Y := { bits := 0xFFF8000000000001 } }] := by
  refine ⟨by decide, by decide, _, recordAt (recordHeaderOfLength 30) nanPointBody,
    New_eq (headerOfLength 84) _ (by decide), by decide, by decide⟩

end decoshp
